import Mathlib

/-!
Shallow embedding of the restaurant-CRM backend (crm/services.py,
crm/tasks.py, crm/models.py, crm/serializers.py).

Timestamps are modelled as integers (seconds); money amounts are integers
(cents, Python ints are unbounded).  Statuses and segment kinds are the
string literals used by the source.  Database tables are lists of records;
the Django query operations used by the source (get, filter, get_or_create,
save with update_fields, select_for_update) are modelled as list operations.
-/

namespace CRM

/-- Seconds in one day: `timedelta(days=d)` is modelled as `d * 86400`. -/
def secondsPerDay : Int := 86400

/-- Customer row (crm/models.py, class Customer).  Fields irrelevant to the
claims (last_name, created_at) are omitted. -/
structure Customer where
  id : Nat
  restaurantId : Nat
  email : String
  first_name : String
  total_spend_cents : Int
  last_visit_at : Option Int
deriving DecidableEq, Repr

/-- Visit row (crm/models.py, class Visit). -/
structure Visit where
  customerId : Nat
  visited_at : Int
  spend_cents : Int
deriving DecidableEq, Repr

/-- Campaign row (crm/models.py, class Campaign). -/
structure Campaign where
  id : Nat
  restaurantId : Nat
  name : String
  status : String
  segment_type : String
  segment_value : Int
  message_template : String
deriving DecidableEq, Repr

/-- OutreachEvent row (crm/models.py, class OutreachEvent). -/
structure OutreachEvent where
  campaignId : Nat
  customerId : Nat
  channel : String
  status : String
  error_message : Option String
  sent_at : Option Int
deriving DecidableEq, Repr

/-- Database state: the tables touched by the embedded operations. -/
structure DB where
  campaigns : List Campaign
  customers : List Customer
  events : List OutreachEvent
deriving DecidableEq, Repr

/-! ### Ledger: record_visit (crm/services.py lines 12-51) -/

/-- One `record_visit` call: the wall-clock time `now` at the call, the
`spend_cents` argument and the optional `visited_at` argument. -/
structure VisitCall where
  now : Int
  spend : Int
  at? : Option Int
deriving DecidableEq, Repr

/-- Effective timestamp of a call: the explicit `visited_at` or, when
omitted, the defaulted `timezone.now()`. -/
def VisitCall.eff (v : VisitCall) : Int :=
  match v.at? with
  | none => v.now
  | some t => t

/-- The last-visit update rule of `record_visit` (crm/services.py lines
47-48): set to the new timestamp only when the field is null or the new
timestamp is strictly later. -/
def bumpLast (o : Option Int) (t : Int) : Option Int :=
  match o with
  | none => some t
  | some m => if t > m then some t else some m

/-- Embedding of `record_visit` (crm/services.py): defaults `visited_at`
to `now`, creates the Visit row, adds `spend_cents` to the customer's
total and raises `last_visit_at` when the new timestamp is strictly
later (or the field was null).  Returns the updated customer and the
created visit. -/
def record_visit (now : Int) (customer : Customer) (spend_cents : Int)
    (visited_at : Option Int) : Customer × Visit :=
  let t : Int := match visited_at with
    | none => now
    | some t => t
  let visit : Visit := { customerId := customer.id, visited_at := t, spend_cents := spend_cents }
  let customer' : Customer :=
    { customer with
      total_spend_cents := customer.total_spend_cents + spend_cents,
      last_visit_at := bumpLast customer.last_visit_at t }
  (customer', visit)

/-- Replay a sequence of `record_visit` calls on one customer. -/
def applyVisits (customer : Customer) (calls : List VisitCall) : Customer :=
  calls.foldl (fun c v => (record_visit v.now c v.spend v.at?).1) customer

/-! ### Segmentation (crm/services.py lines 54-82) -/

/-- Embedding of `inactive_days` (crm/services.py): customers whose
`last_visit_at` is strictly before `now - timedelta(days=days)` or null
(the two `Q` disjuncts of the source). -/
def inactive_days (now : Int) (queryset : List Customer) (days : Int) : List Customer :=
  let cutoff_date : Int := now - days * secondsPerDay
  queryset.filter (fun c =>
    (match c.last_visit_at with
     | some t => decide (t < cutoff_date)
     | none => false) || c.last_visit_at.isNone)

/-- Embedding of `high_spenders` (crm/services.py): customers with
`total_spend_cents >= min_spend_cents`. -/
def high_spenders (queryset : List Customer) (min_spend_cents : Int) : List Customer :=
  queryset.filter (fun c => decide (min_spend_cents ≤ c.total_spend_cents))

/-! ### HTTP boundary validation (crm/serializers.py lines 48-51) -/

/-- Embedding of the `AddVisitSerializer.spend_cents` field validation:
`serializers.IntegerField(min_value=0)` accepts exactly the non-negative
integers. -/
def addVisitSpendValid (spend_cents : Int) : Bool :=
  decide (0 ≤ spend_cents)

/-! ### Template rendering (`str.format` with a first_name keyword) -/

/-- The character code of an opening curly brace. -/
def lbrace : Char := Char.ofNat 123

/-- The character code of a closing curly brace. -/
def rbrace : Char := Char.ofNat 125

/-- The replacement-field name accepted by the pipeline's format call. -/
def firstNameKey : List Char := ['f', 'i', 'r', 's', 't', '_', 'n', 'a', 'm', 'e']

/-- Error text of an unmatched brace in a format string. -/
def braceErr : String := "Single brace encountered in format string"

/-- Scanner mode for the format-string renderer: ordinary text, the
position right after an unexplained opening or closing brace, or inside a
replacement field (with the field name read so far, reversed). -/
inductive ScanMode where
  | text
  | afterOpen
  | afterClose
  | field (revKey : List Char)
deriving DecidableEq, Repr

/-- Renderer for Python `template.format(first_name=...)` restricted to the
behaviour the pipeline relies on: doubled braces are literals, the
`first_name` field is substituted, any other field name raises `KeyError`,
and an unmatched brace raises `ValueError`.  Errors are returned as
`Except.error` with the error text. -/
def renderScan (firstName : List Char) : ScanMode → List Char → Except String (List Char)
  | .text, [] => .ok []
  | .afterOpen, [] => .error braceErr
  | .afterClose, [] => .error braceErr
  | .field _, [] => .error braceErr
  | .text, c :: cs =>
    if c = lbrace then renderScan firstName .afterOpen cs
    else if c = rbrace then renderScan firstName .afterClose cs
    else
      match renderScan firstName .text cs with
      | .ok out => .ok (c :: out)
      | .error e => .error e
  | .afterOpen, c :: cs =>
    if c = lbrace then
      match renderScan firstName .text cs with
      | .ok out => .ok (lbrace :: out)
      | .error e => .error e
    else if c = rbrace then .error ("KeyError: ")
    else renderScan firstName (.field [c]) cs
  | .afterClose, c :: cs =>
    if c = rbrace then
      match renderScan firstName .text cs with
      | .ok out => .ok (rbrace :: out)
      | .error e => .error e
    else .error braceErr
  | .field revKey, c :: cs =>
    if c = rbrace then
      if revKey.reverse = firstNameKey then
        match renderScan firstName .text cs with
        | .ok out => .ok (firstName ++ out)
        | .error e => .error e
      else .error ("KeyError: " ++ String.mk revKey.reverse)
    else renderScan firstName (.field (c :: revKey)) cs

/-- Embedding of `campaign.message_template.format(first_name=customer.first_name)`
(crm/tasks.py line 76). -/
def renderTemplate (template firstName : String) : Except String String :=
  match renderScan firstName.data .text template.data with
  | .ok out => .ok (String.mk out)
  | .error e => .error e

/-! ### Outreach pipeline (crm/tasks.py, run_campaign_task) -/

/-- Does an event row belong to the (campaign, customer) unique key? -/
def evKey (cid custId : Nat) (e : OutreachEvent) : Bool :=
  e.campaignId == cid && e.customerId == custId

/-- The (campaign, customer) keys of an event table, in row order. -/
def eventKeys (evs : List OutreachEvent) : List (Nat × Nat) :=
  evs.map (fun e => (e.campaignId, e.customerId))

/-- Point lookup of the event row for a (campaign, customer) key. -/
def findEv (evs : List OutreachEvent) (cid custId : Nat) : Option OutreachEvent :=
  evs.find? (evKey cid custId)

/-- The fresh row created by get_or_create from its defaults (crm/tasks.py
lines 63-66): status queued, channel email. -/
def newEvent (cid custId : Nat) : OutreachEvent :=
  { campaignId := cid, customerId := custId, channel := "email",
    status := "queued", error_message := none, sent_at := none }

/-- Embedding of `OutreachEvent.objects.get_or_create(campaign=..., customer=...,
defaults={status: queued, channel: email})` (crm/tasks.py lines 60-67):
returns the existing row, or appends a fresh queued email row. -/
def getOrCreate (evs : List OutreachEvent) (cid custId : Nat) :
    OutreachEvent × List OutreachEvent :=
  match findEv evs cid custId with
  | some e => (e, evs)
  | none => (newEvent cid custId, evs ++ [newEvent cid custId])

/-- Embedding of `event.save(update_fields=...)`: update the row with the
(campaign, customer) key in place. -/
def saveEvent (evs : List OutreachEvent) (cid custId : Nat)
    (f : OutreachEvent → OutreachEvent) : List OutreachEvent :=
  evs.map (fun e => if evKey cid custId e then f e else e)

/-- Field update of the successful-send branch (crm/tasks.py lines 88-90). -/
def markSent (now : Int) (e : OutreachEvent) : OutreachEvent :=
  { e with status := "sent", sent_at := some now, error_message := none }

/-- Field update of the simulated-delivery-failure branch (crm/tasks.py
lines 93-94). -/
def markSendFailed (e : OutreachEvent) : OutreachEvent :=
  { e with status := "failed", error_message := some "Simulated email delivery failure" }

/-- Field update of the per-event exception handler (crm/tasks.py lines
102-104): `sent_at` is not in the saved update_fields. -/
def markRenderFailed (msg : String) (e : OutreachEvent) : OutreachEvent :=
  { e with status := "failed", error_message := some msg }

/-- Mutable state of one pipeline run: the events table plus the counters
`total_processed`, `total_sent`, `total_failed`, and the number of
`random.random()` draws made so far (the send-simulation oracle index). -/
structure RunState where
  events : List OutreachEvent
  total_processed : Nat
  total_sent : Nat
  total_failed : Nat
  attempt : Nat
deriving DecidableEq, Repr

/-- Embedding of the per-customer body of the batch loop (crm/tasks.py
lines 58-106).  `oracle k` is the outcome of the k-th `random.random() < 0.9`
draw (`true` = simulated success). -/
def processCustomer (campaign : Campaign) (oracle : Nat → Bool) (now : Int)
    (st : RunState) (customer : Customer) : RunState :=
  let p := getOrCreate st.events campaign.id customer.id
  let event := p.1
  let events1 := p.2
  if event.status == "sent" || event.status == "skipped" then
    { st with events := events1 }
  else
    match renderTemplate campaign.message_template customer.first_name with
    | .ok _message =>
      if oracle st.attempt then
        { st with
          events := saveEvent events1 campaign.id customer.id (markSent now),
          total_sent := st.total_sent + 1,
          total_processed := st.total_processed + 1,
          attempt := st.attempt + 1 }
      else
        { st with
          events := saveEvent events1 campaign.id customer.id markSendFailed,
          total_failed := st.total_failed + 1,
          total_processed := st.total_processed + 1,
          attempt := st.attempt + 1 }
    | .error e =>
      { st with
        events := saveEvent events1 campaign.id customer.id (markRenderFailed e),
        total_failed := st.total_failed + 1,
        total_processed := st.total_processed + 1 }

/-- The batch size constant of crm/tasks.py line 49. -/
def batch_size : Nat := 200

/-- The start offsets produced by `range(0, n, batch_size)`. -/
def batchStarts (n : Nat) : List Nat :=
  (List.range ((n + batch_size - 1) / batch_size)).map (fun j => j * batch_size)

/-- Embedding of one batch iteration: re-query the customers whose id is in
the slice (`Customer.objects.filter(id__in=batch_ids)`) and fold the
per-customer body over them. -/
def processBatch (campaign : Campaign) (oracle : Nat → Bool) (now : Int)
    (customersTable : List Customer) (batch_ids : List Nat) (st : RunState) : RunState :=
  (customersTable.filter (fun c => batch_ids.contains c.id)).foldl
    (processCustomer campaign oracle now) st

/-- Embedding of the batch loop (crm/tasks.py lines 54-106). -/
def runBatches (campaign : Campaign) (oracle : Nat → Bool) (now : Int)
    (customersTable : List Customer) (customer_ids : List Nat) (st : RunState) : RunState :=
  (batchStarts customer_ids.length).foldl
    (fun st i =>
      processBatch campaign oracle now customersTable
        ((customer_ids.drop i).take batch_size) st)
    st

/-- Embedding of `Campaign.objects.get(pk=campaign_id)`. -/
def findCampaign (db : DB) (cid : Nat) : Option Campaign :=
  db.campaigns.find? (fun cp => cp.id == cid)

/-- Embedding of the segmentation dispatch (crm/tasks.py lines 33-42):
restrict to the campaign's restaurant, then apply the filter selected by
`segment_type`; `none` when the segment kind is unrecognized. -/
def segmentCustomers (campaign : Campaign) (now : Int) (customers : List Customer) :
    Option (List Customer) :=
  let restCustomers := customers.filter (fun c => c.restaurantId == campaign.restaurantId)
  if campaign.segment_type == "inactive_days" then
    some (inactive_days now restCustomers campaign.segment_value)
  else if campaign.segment_type == "high_spenders" then
    some (high_spenders restCustomers campaign.segment_value)
  else none

/-- Embedding of `campaign.status = s; campaign.save(update_fields=['status'])`. -/
def setCampaignStatus (db : DB) (cid : Nat) (s : String) : DB :=
  { db with campaigns := db.campaigns.map (fun cp =>
      if cp.id == cid then { cp with status := s } else cp) }

/-- Status of a campaign row, when present. -/
def campaignStatus (db : DB) (cid : Nat) : Option String :=
  (findCampaign db cid).map (fun cp => cp.status)

/-- Exceptions that can escape the body of the run, as distinguished by the
two handlers of crm/tasks.py lines 124-136. -/
inductive PyExc where
  | doesNotExist
  | other (msg : String)
deriving DecidableEq, Repr

/-- Return value of `run_campaign_task`: the stats dict of the normal path,
the bare `return` of the unknown-segment path, or the error dict of the
campaign-not-found handler. -/
inductive TaskReturn where
  | stats (campaignId total_processed total_sent total_failed : Nat)
  | retNone
  | errorDict (campaignId : Nat)
deriving DecidableEq, Repr

/-- Embedding of the body of the outer `try` of `run_campaign_task`
(crm/tasks.py lines 27-122): load the campaign (raising DoesNotExist when
absent), resolve the segment (bare return when unrecognized), run the batch
loop over the materialized customer-id list, then unconditionally mark the
campaign completed and return the stats dict. -/
def run_campaign_inner (oracle : Nat → Bool) (now : Int) (campaign_id : Nat)
    (db : DB) : DB × Except PyExc TaskReturn :=
  match findCampaign db campaign_id with
  | none => (db, .error .doesNotExist)
  | some campaign =>
    match segmentCustomers campaign now db.customers with
    | none => (db, .ok .retNone)
    | some seg =>
      let customer_ids := seg.map (fun c => c.id)
      let stF := runBatches campaign oracle now db.customers customer_ids
        { events := db.events, total_processed := 0, total_sent := 0,
          total_failed := 0, attempt := 0 }
      let db1 := setCampaignStatus { db with events := stF.events } campaign_id "completed"
      (db1, .ok (.stats campaign_id stF.total_processed stF.total_sent stF.total_failed))

/-- Embedding of the exception handlers of `run_campaign_task` (crm/tasks.py
lines 124-136), parametric in the body: DoesNotExist is answered with the
error dict; any other escaping exception pauses the campaign when it can
still be loaded (the inner try/except swallows a failure to do so) and is
then re-raised. -/
def run_campaign_outer (body : DB → DB × Except PyExc TaskReturn)
    (db : DB) (campaign_id : Nat) : DB × Except String TaskReturn :=
  match body db with
  | (db', .ok r) => (db', .ok r)
  | (db', .error .doesNotExist) => (db', .ok (.errorDict campaign_id))
  | (db', .error (.other msg)) =>
    let db'' :=
      match findCampaign db' campaign_id with
      | some _ => setCampaignStatus db' campaign_id "paused"
      | none => db'
    (db'', .error msg)

/-- Embedding of `run_campaign_task` (crm/tasks.py lines 14-136). -/
def run_campaign_task (oracle : Nat → Bool) (now : Int) (db : DB)
    (campaign_id : Nat) : DB × Except String TaskReturn :=
  run_campaign_outer (run_campaign_inner oracle now campaign_id) db campaign_id

/-- One interleaved batch step: the external transition `interfere b` acts
on the database at the boundary before batch `b` (for every batch after the
first), then the loop re-reads the customers table, processes the slice and
writes the updated events back.  `p` is the (batch index, start offset)
pair. -/
def extStep (campaign : Campaign) (oracle : Nat → Bool) (now : Int)
    (interfere : Nat → DB → DB) (customer_ids : List Nat)
    (acc : DB × RunState) (p : Nat × Nat) : DB × RunState :=
  let dbi := if p.1 == 0 then acc.1 else interfere p.1 acc.1
  let st' := processBatch campaign oracle now dbi.customers
    ((customer_ids.drop p.2).take batch_size)
    { acc.2 with events := dbi.events }
  ({ dbi with events := st'.events }, st')

/-- Interleaved semantics of the happy path of `run_campaign_task`: an
external transition `interfere b` is applied to the database at each batch
boundary, modelling a concurrent actor (for example the pause endpoint of
crm/internal_views.py) acting between batches.  The loop re-reads the
customers table per batch, exactly as `Customer.objects.filter(id__in=...)`
does, and the final `campaign.save` writes the in-memory campaign object's
completed status over whatever the campaigns table then holds. -/
def run_with_external (oracle : Nat → Bool) (now : Int) (campaign_id : Nat)
    (interfere : Nat → DB → DB) (db : DB) : DB × Except String TaskReturn :=
  match findCampaign db campaign_id with
  | none => (db, .ok (.errorDict campaign_id))
  | some campaign =>
    match segmentCustomers campaign now db.customers with
    | none => (db, .ok .retNone)
    | some seg =>
      let customer_ids := seg.map (fun c => c.id)
      let init : DB × RunState :=
        (db, { events := db.events, total_processed := 0, total_sent := 0,
               total_failed := 0, attempt := 0 })
      let final :=
        (batchStarts customer_ids.length).enum.foldl
          (extStep campaign oracle now interfere customer_ids) init
      let dbDone := setCampaignStatus final.1 campaign_id "completed"
      (dbDone, .ok (.stats campaign_id final.2.total_processed
        final.2.total_sent final.2.total_failed))

/-! ### Ledger lemmas -/

theorem applyVisits_cons (c : Customer) (v : VisitCall) (vs : List VisitCall) :
    applyVisits c (v :: vs) = applyVisits (record_visit v.now c v.spend v.at?).1 vs := rfl

theorem record_visit_fst_total (now : Int) (c : Customer) (s : Int) (vat : Option Int) :
    (record_visit now c s vat).1.total_spend_cents = c.total_spend_cents + s := rfl

theorem applyVisits_total (calls : List VisitCall) :
    ∀ c : Customer, (applyVisits c calls).total_spend_cents
      = c.total_spend_cents + (calls.map (fun v => v.spend)).sum := by
  induction calls with
  | nil => intro c; simp [applyVisits]
  | cons v vs ih =>
    intro c
    rw [applyVisits_cons, ih, record_visit_fst_total]
    simp [List.sum_cons]
    ring

theorem record_visit_eff (c : Customer) (s : Int) (v : VisitCall) :
    (record_visit v.now c s v.at?).1.last_visit_at
      = bumpLast c.last_visit_at v.eff := rfl

theorem bumpLast_some (m t : Int) : bumpLast (some m) t = some (max m t) := by
  simp only [bumpLast]
  split
  · rename_i hgt
    rw [max_eq_right hgt.le]
  · rename_i hle
    rw [max_eq_left (not_lt.mp hle)]

theorem bumpLast_comm (o : Option Int) (x y : Int) :
    bumpLast (bumpLast o x) y = bumpLast (bumpLast o y) x := by
  cases o with
  | none =>
    show bumpLast (some x) y = bumpLast (some y) x
    rw [bumpLast_some, bumpLast_some, max_comm]
  | some m =>
    rw [bumpLast_some, bumpLast_some, bumpLast_some, bumpLast_some, sup_right_comm m x y]

theorem applyVisits_last_some (calls : List VisitCall) :
    ∀ (c : Customer) (m : Int), c.last_visit_at = some m →
      (applyVisits c calls).last_visit_at
        = some ((calls.map VisitCall.eff).foldl max m) := by
  induction calls with
  | nil => intro c m h; simpa [applyVisits]
  | cons v vs ih =>
    intro c m h
    rw [applyVisits_cons]
    have hstep : (record_visit v.now c v.spend v.at?).1.last_visit_at
        = some (max m v.eff) := by
      rw [record_visit_eff, h, bumpLast_some]
    rw [ih _ _ hstep]
    simp

theorem applyVisits_last_none (c : Customer) (h : c.last_visit_at = none)
    (calls : List VisitCall) :
    (applyVisits c calls).last_visit_at = (calls.map VisitCall.eff).max? := by
  cases calls with
  | nil => simpa [applyVisits]
  | cons v vs =>
    rw [applyVisits_cons]
    have hstep : (record_visit v.now c v.spend v.at?).1.last_visit_at = some v.eff := by
      rw [record_visit_eff, h]
      rfl
    rw [applyVisits_last_some vs _ v.eff hstep]
    simp [List.max?]

theorem record_visit_comm (a b : VisitCall) (c : Customer) :
    (record_visit b.now (record_visit a.now c a.spend a.at?).1 b.spend b.at?).1
      = (record_visit a.now (record_visit b.now c b.spend b.at?).1 a.spend a.at?).1 := by
  cases c with
  | mk i rid em fn tot lv =>
    simp only [record_visit, Customer.mk.injEq, true_and]
    constructor
    · ring
    · exact bumpLast_comm lv _ _

theorem applyVisits_perm (c : Customer) (calls₁ calls₂ : List VisitCall)
    (h : calls₁.Perm calls₂) : applyVisits c calls₁ = applyVisits c calls₂ := by
  induction h generalizing c with
  | nil => rfl
  | cons v _ ih => rw [applyVisits_cons, applyVisits_cons, ih]
  | swap a b l =>
    rw [applyVisits_cons, applyVisits_cons, applyVisits_cons, applyVisits_cons,
      record_visit_comm]
  | trans _ _ ih₁ ih₂ => rw [ih₁, ih₂]

/-! ### Claim C1 -/

/-- C1: starting from `total_spend_cents = 0` and `last_visit_at = null`,
replaying any sequence of `record_visit` calls on one customer leaves
`total_spend_cents` equal to the sum of the `spend_cents` arguments and
`last_visit_at` equal to the maximum of the (explicit or defaulted)
`visited_at` values, and the outcome is independent of the order of the
calls. -/
theorem record_visit_sequences (c0 : Customer) (calls calls' : List VisitCall)
    (h0 : c0.total_spend_cents = 0) (h1 : c0.last_visit_at = none)
    (hp : calls.Perm calls') :
    (applyVisits c0 calls).total_spend_cents = (calls.map (fun v => v.spend)).sum
    ∧ (applyVisits c0 calls).last_visit_at = (calls.map VisitCall.eff).max?
    ∧ applyVisits c0 calls = applyVisits c0 calls' := by
  refine ⟨?_, applyVisits_last_none c0 h1 calls, applyVisits_perm c0 _ _ hp⟩
  rw [applyVisits_total, h0, zero_add]

/-- Example customer with zero totals. -/
def freshW : Customer :=
  { id := 1, restaurantId := 1, email := "ann@example.com", first_name := "Ann",
    total_spend_cents := 0, last_visit_at := none }

/-- Example call sequence and a permutation of it. -/
def callsW : List VisitCall := [⟨5, 5000, none⟩, ⟨3, 2000, some 10⟩]

/-- The example call sequence in the other order. -/
def callsW' : List VisitCall := [⟨3, 2000, some 10⟩, ⟨5, 5000, none⟩]

theorem record_visit_sequences_witness :
    (applyVisits freshW callsW).total_spend_cents = (callsW.map (fun v => v.spend)).sum
    ∧ (applyVisits freshW callsW).last_visit_at = (callsW.map VisitCall.eff).max?
    ∧ applyVisits freshW callsW = applyVisits freshW callsW' :=
  record_visit_sequences freshW callsW callsW' rfl rfl (by decide)

/-! ### Claim C7 -/

/-- C7: the segmentation predicates select exactly the specified customers:
`inactive_days` keeps a customer iff `last_visit_at` is null or strictly
earlier than now minus the day span (so never-visited customers are always
kept), and `high_spenders` keeps a customer iff `total_spend_cents` is at
least the threshold (inclusive boundary, threshold minus one excluded). -/
theorem segmentation_predicates (now : Int) (cs : List Customer)
    (days minCents : Int) (c : Customer) :
    (c ∈ inactive_days now cs days ↔
      c ∈ cs ∧ (c.last_visit_at = none
        ∨ ∃ t, c.last_visit_at = some t ∧ t < now - days * secondsPerDay))
    ∧ (c ∈ high_spenders cs minCents ↔ c ∈ cs ∧ minCents ≤ c.total_spend_cents)
    ∧ (c.last_visit_at = none → c ∈ cs → c ∈ inactive_days now cs days)
    ∧ (c.total_spend_cents = minCents → c ∈ cs → c ∈ high_spenders cs minCents)
    ∧ (c.total_spend_cents = minCents - 1 → c ∉ high_spenders cs minCents) := by
  have hcond : ∀ (o : Option Int) (cut : Int),
      ((match o with | some t => decide (t < cut) | none => false) || o.isNone) = true
        ↔ (o = none ∨ ∃ t, o = some t ∧ t < cut) := by
    intro o cut
    cases o with
    | none => simp
    | some t => simp
  have hin : c ∈ inactive_days now cs days ↔
      c ∈ cs ∧ (c.last_visit_at = none
        ∨ ∃ t, c.last_visit_at = some t ∧ t < now - days * secondsPerDay) := by
    simp only [inactive_days, List.mem_filter]
    exact and_congr_right fun _ => hcond c.last_visit_at (now - days * secondsPerDay)
  have hhs : c ∈ high_spenders cs minCents ↔
      c ∈ cs ∧ minCents ≤ c.total_spend_cents := by
    simp [high_spenders, List.mem_filter]
  refine ⟨hin, hhs, ?_, ?_, ?_⟩
  · intro hnone hm
    exact hin.mpr ⟨hm, Or.inl hnone⟩
  · intro heq hm
    exact hhs.mpr ⟨hm, le_of_eq heq.symm⟩
  · intro heq hmem
    have := (hhs.mp hmem).2
    omega

theorem segmentation_predicates_witness :
    freshW ∈ inactive_days 0 [freshW] 30
    ∧ freshW ∈ high_spenders [freshW] 0 := by
  have h := segmentation_predicates 0 [freshW] 30 0 freshW
  exact ⟨h.2.2.1 rfl (by simp), h.2.1.mpr (by simp [freshW])⟩

/-! ### Claim C10 -/

/-- C10: `record_visit` itself imposes no lower bound on `spend_cents`: for
any integer spend (negative included) the call succeeds, records the visit
with that spend and adds it to the total, so a negative spend strictly
decreases the total; the non-negativity check lives only in the HTTP
boundary serializer (`AddVisitSerializer`, min_value=0). -/
theorem record_visit_no_lower_bound (now : Int) (c : Customer) (spend : Int)
    (vat : Option Int) :
    (record_visit now c spend vat).1.total_spend_cents = c.total_spend_cents + spend
    ∧ (record_visit now c spend vat).2.spend_cents = spend
    ∧ (record_visit now c spend vat).2.customerId = c.id
    ∧ (spend < 0 →
        (record_visit now c spend vat).1.total_spend_cents < c.total_spend_cents)
    ∧ (addVisitSpendValid spend = false ↔ spend < 0) := by
  refine ⟨rfl, rfl, rfl, ?_, ?_⟩
  · intro hneg
    rw [record_visit_fst_total]
    omega
  · simp [addVisitSpendValid]

theorem record_visit_no_lower_bound_witness :
    (record_visit 5 freshW (-500) none).1.total_spend_cents
        = freshW.total_spend_cents + (-500)
    ∧ (record_visit 5 freshW (-500) none).2.spend_cents = -500
    ∧ (record_visit 5 freshW (-500) none).2.customerId = freshW.id
    ∧ (-500 < 0 →
        (record_visit 5 freshW (-500) none).1.total_spend_cents
          < freshW.total_spend_cents)
    ∧ (addVisitSpendValid (-500) = false ↔ -500 < 0) :=
  record_visit_no_lower_bound 5 freshW (-500) none

/-! ### Pipeline helper lemmas -/

theorem findCampaign_events (db : DB) (cid : Nat) (evs : List OutreachEvent) :
    findCampaign { db with events := evs } cid = findCampaign db cid := rfl

theorem findCampaign_setStatus (db : DB) (cid : Nat) (s : String) :
    findCampaign (setCampaignStatus db cid s) cid
      = (findCampaign db cid).map (fun cp => { cp with status := s }) := by
  simp only [findCampaign, setCampaignStatus]
  rw [List.find?_map]
  have hpred : ((fun cp : Campaign => cp.id == cid)
      ∘ (fun cp : Campaign => if cp.id == cid then { cp with status := s } else cp))
      = (fun cp : Campaign => cp.id == cid) := by
    funext cp
    by_cases h : cp.id = cid <;> simp [h]
  rw [hpred]
  cases hf : db.campaigns.find? (fun cp => cp.id == cid) with
  | none => rfl
  | some cp =>
    have hcp := List.find?_some hf
    simp [hcp]
    intro hne
    exact absurd (by simpa using hcp) hne

/-! ### Claim C9 -/

/-- C9: invoking `run_campaign_task` with a campaign id that does not exist
answers with the error dict and leaves the whole database untouched: no
OutreachEvent rows are created and no campaign or customer state changes. -/
theorem run_missing_campaign (oracle : Nat → Bool) (now : Int) (db : DB)
    (cid : Nat) (h : findCampaign db cid = none) :
    run_campaign_task oracle now db cid = (db, .ok (.errorDict cid)) := by
  simp [run_campaign_task, run_campaign_outer, run_campaign_inner, h]

theorem run_missing_campaign_witness :
    run_campaign_task (fun _ => true) 0
        { campaigns := [], customers := [freshW], events := [] } 7
      = ({ campaigns := [], customers := [freshW], events := [] },
         .ok (.errorDict 7)) :=
  run_missing_campaign (fun _ => true) 0 _ 7 (by decide)

/-! ### Claim C3 -/

/-- C3: when the campaign exists but its `segment_type` is neither
`inactive_days` nor `high_spenders`, `run_campaign_task` returns (bare
`return`, modelled as `retNone`) leaving the database unchanged: no
OutreachEvent is created and the campaign status keeps its pre-run value. -/
theorem run_unknown_segment (oracle : Nat → Bool) (now : Int) (db : DB)
    (cid : Nat) (campaign : Campaign)
    (hc : findCampaign db cid = some campaign)
    (h1 : campaign.segment_type ≠ "inactive_days")
    (h2 : campaign.segment_type ≠ "high_spenders") :
    run_campaign_task oracle now db cid = (db, .ok .retNone)
    ∧ (run_campaign_task oracle now db cid).1.events = db.events
    ∧ campaignStatus (run_campaign_task oracle now db cid).1 cid
        = campaignStatus db cid := by
  have hseg : segmentCustomers campaign now db.customers = none := by
    simp [segmentCustomers, h1, h2]
  have hrun : run_campaign_task oracle now db cid = (db, .ok .retNone) := by
    simp [run_campaign_task, run_campaign_outer, run_campaign_inner, hc, hseg]
  exact ⟨hrun, by rw [hrun], by rw [hrun]⟩

/-- Example campaign with an unrecognized segment kind. -/
def campVipW : Campaign :=
  { id := 1, restaurantId := 1, name := "vip blast", status := "running",
    segment_type := "vip", segment_value := 0,
    message_template := "Hi {first_name}" }

/-- Example database holding only the unrecognized-segment campaign. -/
def dbVipW : DB := { campaigns := [campVipW], customers := [freshW], events := [] }

theorem run_unknown_segment_witness :
    run_campaign_task (fun _ => true) 0 dbVipW 1 = (dbVipW, .ok .retNone)
    ∧ (run_campaign_task (fun _ => true) 0 dbVipW 1).1.events = dbVipW.events
    ∧ campaignStatus (run_campaign_task (fun _ => true) 0 dbVipW 1).1 1
        = campaignStatus dbVipW 1 :=
  run_unknown_segment (fun _ => true) 0 dbVipW 1 campVipW (by decide)
    (by decide) (by decide)

/-! ### Claim C5 -/

/-- C5: every run that finds the campaign and resolves a recognized segment
finishes by setting the campaign status to completed, unconditionally: this
covers runs where events failed and runs whose segment matched no customer,
and the return value is the stats dict. -/
theorem run_sets_completed (oracle : Nat → Bool) (now : Int) (db : DB)
    (cid : Nat) (campaign : Campaign) (seg : List Customer)
    (hc : findCampaign db cid = some campaign)
    (hseg : segmentCustomers campaign now db.customers = some seg) :
    campaignStatus (run_campaign_task oracle now db cid).1 cid = some "completed"
    ∧ ∃ p s f, (run_campaign_task oracle now db cid).2 = .ok (.stats cid p s f) := by
  have hrun : run_campaign_task oracle now db cid
      = (setCampaignStatus
          { db with events := (runBatches campaign oracle now db.customers
              (seg.map (fun c => c.id))
              { events := db.events, total_processed := 0, total_sent := 0,
                total_failed := 0, attempt := 0 }).events } cid "completed",
         .ok (.stats cid
          (runBatches campaign oracle now db.customers (seg.map (fun c => c.id))
            { events := db.events, total_processed := 0, total_sent := 0,
              total_failed := 0, attempt := 0 }).total_processed
          (runBatches campaign oracle now db.customers (seg.map (fun c => c.id))
            { events := db.events, total_processed := 0, total_sent := 0,
              total_failed := 0, attempt := 0 }).total_sent
          (runBatches campaign oracle now db.customers (seg.map (fun c => c.id))
            { events := db.events, total_processed := 0, total_sent := 0,
              total_failed := 0, attempt := 0 }).total_failed)) := by
    simp [run_campaign_task, run_campaign_outer, run_campaign_inner, hc, hseg]
  refine ⟨?_, ?_⟩
  · rw [hrun]
    simp [campaignStatus, findCampaign_setStatus, findCampaign_events, hc]
  · rw [hrun]
    exact ⟨_, _, _, rfl⟩

/-- Example campaign whose segment matches no customer. -/
def campEmptyW : Campaign :=
  { id := 1, restaurantId := 1, name := "none match", status := "running",
    segment_type := "high_spenders", segment_value := 1000000,
    message_template := "Hi {first_name}" }

/-- Example database where the recognized segment is empty. -/
def dbEmptyW : DB := { campaigns := [campEmptyW], customers := [freshW], events := [] }

theorem run_sets_completed_witness :
    campaignStatus (run_campaign_task (fun _ => true) 0 dbEmptyW 1).1 1
        = some "completed"
    ∧ ∃ p s f, (run_campaign_task (fun _ => true) 0 dbEmptyW 1).2
        = .ok (.stats 1 p s f) :=
  run_sets_completed (fun _ => true) 0 dbEmptyW 1 campEmptyW [] (by decide) (by decide)

/-! ### Claim C6 -/

/-- C6: the outer exception handler of `run_campaign_task`
(`run_campaign_task` is by definition `run_campaign_outer` applied to
`run_campaign_inner`): when the run body escapes with an unexpected
(non-DoesNotExist) error, the campaign is set to paused when it can still
be loaded — a failure to load it again is swallowed and the database is
left as the body left it — and the error is re-raised to the caller. -/
theorem run_level_error_pauses (body : DB → DB × Except PyExc TaskReturn)
    (db db' : DB) (cid : Nat) (msg : String)
    (h : body db = (db', .error (.other msg))) :
    (run_campaign_outer body db cid).2 = .error msg
    ∧ (∀ cp, findCampaign db' cid = some cp →
        campaignStatus (run_campaign_outer body db cid).1 cid = some "paused")
    ∧ (findCampaign db' cid = none → (run_campaign_outer body db cid).1 = db') := by
  have hout : run_campaign_outer body db cid
      = ((match findCampaign db' cid with
          | some _ => setCampaignStatus db' cid "paused"
          | none => db'), .error msg) := by
    simp [run_campaign_outer, h]
  refine ⟨by rw [hout], ?_, ?_⟩
  · intro cp hcp
    rw [hout]
    simp [hcp, campaignStatus, findCampaign_setStatus]
  · intro hnone
    rw [hout]
    simp [hnone]

/-- Example body that fails with a run-level error without touching the
database. -/
def failingBodyW : DB → DB × Except PyExc TaskReturn :=
  fun db => (db, .error (.other "boom"))

theorem run_level_error_pauses_witness :
    (run_campaign_outer failingBodyW dbVipW 1).2 = .error "boom"
    ∧ (∀ cp, findCampaign dbVipW 1 = some cp →
        campaignStatus (run_campaign_outer failingBodyW dbVipW 1).1 1
          = some "paused")
    ∧ (findCampaign dbVipW 1 = none →
        (run_campaign_outer failingBodyW dbVipW 1).1 = dbVipW) :=
  run_level_error_pauses failingBodyW dbVipW dbVipW 1 "boom" rfl

/-! ### Event-table lemmas -/

theorem evKey_true_iff (cid custId : Nat) (e : OutreachEvent) :
    evKey cid custId e = true ↔ e.campaignId = cid ∧ e.customerId = custId := by
  simp [evKey]

theorem eventKeys_append (l₁ l₂ : List OutreachEvent) :
    eventKeys (l₁ ++ l₂) = eventKeys l₁ ++ eventKeys l₂ := by
  simp [eventKeys]

theorem mem_eventKeys (cid custId : Nat) (evs : List OutreachEvent) :
    (cid, custId) ∈ eventKeys evs ↔ ∃ e ∈ evs, evKey cid custId e = true := by
  simp only [eventKeys, List.mem_map, evKey, Bool.and_eq_true, beq_iff_eq, Prod.mk.injEq]

theorem findEv_none_iff (evs : List OutreachEvent) (cid custId : Nat) :
    findEv evs cid custId = none ↔ (cid, custId) ∉ eventKeys evs := by
  rw [findEv, List.find?_eq_none, mem_eventKeys]
  push_neg
  constructor
  · intro h e he
    simpa using h e he
  · intro h e he
    simpa using h e he

theorem findEv_some_mem {evs : List OutreachEvent} {cid custId : Nat}
    {e : OutreachEvent} (h : findEv evs cid custId = some e) : e ∈ evs :=
  List.mem_of_find?_eq_some h

theorem findEv_some_key {evs : List OutreachEvent} {cid custId : Nat}
    {e : OutreachEvent} (h : findEv evs cid custId = some e) :
    evKey cid custId e = true :=
  List.find?_some h

theorem findEv_of_nodup {evs : List OutreachEvent} {cid custId : Nat}
    {e : OutreachEvent} (hnd : (eventKeys evs).Nodup) (he : e ∈ evs)
    (hk : evKey cid custId e = true) : findEv evs cid custId = some e := by
  induction evs with
  | nil => cases he
  | cons a l ih =>
    have hnd' := List.nodup_cons.mp hnd
    cases hpa : evKey cid custId a with
    | true =>
      rw [findEv, List.find?_cons_of_pos _ hpa]
      rcases List.mem_cons.mp he with rfl | hel
      · rfl
      · exfalso
        apply hnd'.1
        show (a.campaignId, a.customerId) ∈ eventKeys l
        have hka := (evKey_true_iff _ _ _).mp hpa
        rw [hka.1, hka.2, mem_eventKeys]
        exact ⟨e, hel, hk⟩
    | false =>
      rw [findEv, List.find?_cons_of_neg _ (by simp [hpa])]
      rcases List.mem_cons.mp he with rfl | hel
      · rw [hk] at hpa; cases hpa
      · exact ih hnd'.2 hel

/-- Key preservation of an event-field update. -/
def KeyPres (f : OutreachEvent → OutreachEvent) : Prop :=
  ∀ e, (f e).campaignId = e.campaignId ∧ (f e).customerId = e.customerId

theorem keyPres_markSent (now : Int) : KeyPres (markSent now) := fun _ => ⟨rfl, rfl⟩

theorem keyPres_markSendFailed : KeyPres markSendFailed := fun _ => ⟨rfl, rfl⟩

theorem keyPres_markRenderFailed (m : String) : KeyPres (markRenderFailed m) :=
  fun _ => ⟨rfl, rfl⟩

theorem evKey_keyPres {f : OutreachEvent → OutreachEvent} (hf : KeyPres f)
    (cid custId : Nat) (e : OutreachEvent) :
    evKey cid custId (f e) = evKey cid custId e := by
  simp [evKey, (hf e).1, (hf e).2]

theorem saveEvent_keys {f : OutreachEvent → OutreachEvent} (hf : KeyPres f)
    (evs : List OutreachEvent) (cid custId : Nat) :
    eventKeys (saveEvent evs cid custId f) = eventKeys evs := by
  induction evs with
  | nil => rfl
  | cons a l ih =>
    show ((if evKey cid custId a then f a else a).campaignId,
        (if evKey cid custId a then f a else a).customerId)
          :: eventKeys (saveEvent l cid custId f)
        = (a.campaignId, a.customerId) :: eventKeys l
    rw [ih]
    cases hb : evKey cid custId a with
    | true => simp [(hf a).1, (hf a).2]
    | false => simp

theorem saveEvent_mem_other {f : OutreachEvent → OutreachEvent}
    {evs : List OutreachEvent} {cid custId : Nat} {e : OutreachEvent}
    (he : e ∈ evs) (hne : evKey cid custId e = false) :
    e ∈ saveEvent evs cid custId f := by
  simp only [saveEvent, List.mem_map]
  exact ⟨e, he, by simp [hne]⟩

theorem findEv_saveEvent_self {f : OutreachEvent → OutreachEvent} (hf : KeyPres f)
    (evs : List OutreachEvent) (cid custId : Nat) :
    findEv (saveEvent evs cid custId f) cid custId
      = (findEv evs cid custId).map f := by
  induction evs with
  | nil => rfl
  | cons a l ih =>
    cases hpa : evKey cid custId a with
    | true =>
      have hfa : evKey cid custId (f a) = true := by
        rw [evKey_keyPres hf, hpa]
      simp only [saveEvent, List.map_cons, if_pos hpa]
      rw [findEv, List.find?_cons_of_pos _ hfa, findEv, List.find?_cons_of_pos _ hpa]
      rfl
    | false =>
      simp only [saveEvent, List.map_cons, if_neg (by simp [hpa] : ¬(evKey cid custId a = true))]
      rw [findEv, List.find?_cons_of_neg _ (by simp [hpa]), findEv,
        List.find?_cons_of_neg _ (by simp [hpa])]
      exact ih

theorem findEv_saveEvent_other {f : OutreachEvent → OutreachEvent} (hf : KeyPres f)
    (evs : List OutreachEvent) (cid custId cid' custId' : Nat)
    (hne : ¬(cid' = cid ∧ custId' = custId)) :
    findEv (saveEvent evs cid custId f) cid' custId'
      = findEv evs cid' custId' := by
  induction evs with
  | nil => rfl
  | cons a l ih =>
    cases hpa : evKey cid' custId' a with
    | true =>
      have hgate : evKey cid custId a = false := by
        rcases Bool.eq_false_or_eq_true (evKey cid custId a) with h | h
        · exfalso
          have h1 := (evKey_true_iff _ _ _).mp hpa
          have h2 := (evKey_true_iff _ _ _).mp h
          exact hne ⟨by rw [← h1.1, h2.1], by rw [← h1.2, h2.2]⟩
        · exact h
      simp only [saveEvent, List.map_cons, if_neg (by simp [hgate] : ¬(evKey cid custId a = true))]
      rw [findEv, List.find?_cons_of_pos _ hpa, findEv, List.find?_cons_of_pos _ hpa]
    | false =>
      simp only [saveEvent, List.map_cons]
      split
      · rename_i hkey
        have hfa : evKey cid' custId' (f a) = false := by
          rw [evKey_keyPres hf, hpa]
        rw [findEv, List.find?_cons_of_neg _ (by simp [hfa]), findEv,
          List.find?_cons_of_neg _ (by simp [hpa])]
        exact ih
      · rw [findEv, List.find?_cons_of_neg _ (by simp [hpa]), findEv,
          List.find?_cons_of_neg _ (by simp [hpa])]
        exact ih

theorem findEv_append_new (evs : List OutreachEvent) (x : OutreachEvent)
    (cid custId : Nat) (h : findEv evs cid custId = none) :
    findEv (evs ++ [x]) cid custId
      = if evKey cid custId x then some x else none := by
  induction evs with
  | nil =>
    simp only [List.nil_append, findEv]
    split
    · rename_i hx
      exact List.find?_cons_of_pos _ hx
    · rename_i hx
      rw [List.find?_cons_of_neg _ hx]
      rfl
  | cons a l ih =>
    have ha : evKey cid custId a = false := by
      rcases Bool.eq_false_or_eq_true (evKey cid custId a) with h' | h'
      · rw [findEv, List.find?_cons_of_pos _ h'] at h; cases h
      · exact h'
    rw [List.cons_append, findEv, List.find?_cons_of_neg _ (by simp [ha])]
    rw [findEv, List.find?_cons_of_neg _ (by simp [ha])] at h
    exact ih h

theorem evKey_newEvent (cid custId : Nat) :
    evKey cid custId (newEvent cid custId) = true := by
  simp [evKey, newEvent]

theorem getOrCreate_found {evs : List OutreachEvent} {cid custId : Nat}
    {e : OutreachEvent} (h : findEv evs cid custId = some e) :
    getOrCreate evs cid custId = (e, evs) := by
  simp [getOrCreate, h]

theorem getOrCreate_new {evs : List OutreachEvent} {cid custId : Nat}
    (h : findEv evs cid custId = none) :
    getOrCreate evs cid custId = (newEvent cid custId, evs ++ [newEvent cid custId]) := by
  simp [getOrCreate, h]

theorem findEv_append_other (evs : List OutreachEvent) (x : OutreachEvent)
    (cid custId : Nat) (hx : evKey cid custId x = false) :
    findEv (evs ++ [x]) cid custId = findEv evs cid custId := by
  induction evs with
  | nil =>
    show findEv [x] cid custId = findEv [] cid custId
    rw [findEv, List.find?_cons_of_neg _ (by simp [hx])]
    rfl
  | cons a l ih =>
    cases hpa : evKey cid custId a with
    | true =>
      rw [List.cons_append, findEv, List.find?_cons_of_pos _ hpa, findEv,
        List.find?_cons_of_pos _ hpa]
    | false =>
      rw [List.cons_append, findEv, List.find?_cons_of_neg _ (by simp [hpa]), findEv,
        List.find?_cons_of_neg _ (by simp [hpa])]
      exact ih

/-! ### Per-customer processing lemmas -/

/-- The event at the key, when present, is not in a terminal state. -/
def Nonterminal (evs : List OutreachEvent) (cid custId : Nat) : Prop :=
  ∀ e, findEv evs cid custId = some e → ¬ e.status = "sent" ∧ ¬ e.status = "skipped"

theorem processCustomer_found {campaign : Campaign} {oracle : Nat → Bool} {now : Int}
    {st : RunState} {c : Customer} {e : OutreachEvent}
    (h : findEv st.events campaign.id c.id = some e) :
    processCustomer campaign oracle now st c
      = if e.status == "sent" || e.status == "skipped" then st
        else
          match renderTemplate campaign.message_template c.first_name with
          | .ok _ =>
            if oracle st.attempt then
              { st with
                events := saveEvent st.events campaign.id c.id (markSent now),
                total_sent := st.total_sent + 1,
                total_processed := st.total_processed + 1,
                attempt := st.attempt + 1 }
            else
              { st with
                events := saveEvent st.events campaign.id c.id markSendFailed,
                total_failed := st.total_failed + 1,
                total_processed := st.total_processed + 1,
                attempt := st.attempt + 1 }
          | .error m =>
            { st with
              events := saveEvent st.events campaign.id c.id (markRenderFailed m),
              total_failed := st.total_failed + 1,
              total_processed := st.total_processed + 1 } := by
  simp only [processCustomer, getOrCreate_found h]

theorem processCustomer_new {campaign : Campaign} {oracle : Nat → Bool} {now : Int}
    {st : RunState} {c : Customer}
    (h : findEv st.events campaign.id c.id = none) :
    processCustomer campaign oracle now st c
      = match renderTemplate campaign.message_template c.first_name with
        | .ok _ =>
          if oracle st.attempt then
            { st with
              events := saveEvent (st.events ++ [newEvent campaign.id c.id])
                campaign.id c.id (markSent now),
              total_sent := st.total_sent + 1,
              total_processed := st.total_processed + 1,
              attempt := st.attempt + 1 }
          else
            { st with
              events := saveEvent (st.events ++ [newEvent campaign.id c.id])
                campaign.id c.id markSendFailed,
              total_failed := st.total_failed + 1,
              total_processed := st.total_processed + 1,
              attempt := st.attempt + 1 }
        | .error m =>
          { st with
            events := saveEvent (st.events ++ [newEvent campaign.id c.id])
              campaign.id c.id (markRenderFailed m),
            total_failed := st.total_failed + 1,
            total_processed := st.total_processed + 1 } := by
  simp only [processCustomer, getOrCreate_new h, newEvent]
  rfl

theorem processCustomer_skip {campaign : Campaign} {oracle : Nat → Bool} {now : Int}
    {st : RunState} {c : Customer} {e : OutreachEvent}
    (h : findEv st.events campaign.id c.id = some e)
    (hst : (e.status == "sent" || e.status == "skipped") = true) :
    processCustomer campaign oracle now st c = st := by
  rw [processCustomer_found h, if_pos hst]

theorem processCustomer_keys (campaign : Campaign) (oracle : Nat → Bool) (now : Int)
    (st : RunState) (c : Customer) :
    eventKeys (processCustomer campaign oracle now st c).events
      = if (campaign.id, c.id) ∈ eventKeys st.events then eventKeys st.events
        else eventKeys st.events ++ [(campaign.id, c.id)] := by
  cases hfe : findEv st.events campaign.id c.id with
  | some e =>
    have hmem : (campaign.id, c.id) ∈ eventKeys st.events := by
      rw [mem_eventKeys]
      exact ⟨e, findEv_some_mem hfe, findEv_some_key hfe⟩
    rw [if_pos hmem, processCustomer_found hfe]
    split
    · rfl
    · split
      · split
        · exact saveEvent_keys (keyPres_markSent now) _ _ _
        · exact saveEvent_keys keyPres_markSendFailed _ _ _
      · exact saveEvent_keys (keyPres_markRenderFailed _) _ _ _
  | none =>
    have hmem : (campaign.id, c.id) ∉ eventKeys st.events :=
      (findEv_none_iff _ _ _).mp hfe
    have hkeys : ∀ f, KeyPres f →
        eventKeys (saveEvent (st.events ++ [newEvent campaign.id c.id])
            campaign.id c.id f)
          = eventKeys st.events ++ [(campaign.id, c.id)] := by
      intro f hf
      rw [saveEvent_keys hf, eventKeys_append]
      rfl
    rw [if_neg hmem, processCustomer_new hfe]
    split
    · split
      · exact hkeys _ (keyPres_markSent now)
      · exact hkeys _ keyPres_markSendFailed
    · exact hkeys _ (keyPres_markRenderFailed _)

theorem processCustomer_keys_mono {campaign : Campaign} {oracle : Nat → Bool}
    {now : Int} {st : RunState} {c : Customer} {k : Nat × Nat}
    (hk : k ∈ eventKeys st.events) :
    k ∈ eventKeys (processCustomer campaign oracle now st c).events := by
  rw [processCustomer_keys]
  split
  · exact hk
  · exact List.mem_append_left _ hk

theorem processCustomer_key_present (campaign : Campaign) (oracle : Nat → Bool)
    (now : Int) (st : RunState) (c : Customer) :
    (campaign.id, c.id) ∈ eventKeys (processCustomer campaign oracle now st c).events := by
  rw [processCustomer_keys]
  split
  · rename_i h
    exact h
  · exact List.mem_append_right _ (by simp)

theorem processCustomer_keys_nodup {campaign : Campaign} {oracle : Nat → Bool}
    {now : Int} {st : RunState} {c : Customer}
    (hnd : (eventKeys st.events).Nodup) :
    (eventKeys (processCustomer campaign oracle now st c).events).Nodup := by
  rw [processCustomer_keys]
  split
  · exact hnd
  · rename_i h
    rw [List.nodup_append]
    refine ⟨hnd, List.nodup_singleton _, ?_⟩
    intro a ha hb
    rw [List.mem_singleton] at hb
    subst hb
    exact h ha

theorem processCustomer_mem_other {campaign : Campaign} {oracle : Nat → Bool}
    {now : Int} {st : RunState} {c : Customer} {e : OutreachEvent}
    (he : e ∈ st.events) (hne : evKey campaign.id c.id e = false) :
    e ∈ (processCustomer campaign oracle now st c).events := by
  cases hfe : findEv st.events campaign.id c.id with
  | some e0 =>
    rw [processCustomer_found hfe]
    split
    · exact he
    · split
      · split
        · exact saveEvent_mem_other he hne
        · exact saveEvent_mem_other he hne
      · exact saveEvent_mem_other he hne
  | none =>
    have he' : e ∈ st.events ++ [newEvent campaign.id c.id] :=
      List.mem_append_left _ he
    rw [processCustomer_new hfe]
    split
    · split
      · exact saveEvent_mem_other he' hne
      · exact saveEvent_mem_other he' hne
    · exact saveEvent_mem_other he' hne

theorem processCustomer_terminal_mem {campaign : Campaign} {oracle : Nat → Bool}
    {now : Int} {st : RunState} {c : Customer} {e : OutreachEvent}
    (hnd : (eventKeys st.events).Nodup) (he : e ∈ st.events)
    (hst : e.status = "sent" ∨ e.status = "skipped") :
    e ∈ (processCustomer campaign oracle now st c).events := by
  cases hk : evKey campaign.id c.id e with
  | true =>
    have hfe := findEv_of_nodup hnd he hk
    rw [processCustomer_skip hfe (by rcases hst with h | h <;> simp [h])]
    exact he
  | false => exact processCustomer_mem_other he hk

theorem processCustomer_findEv_other {campaign : Campaign} {oracle : Nat → Bool}
    {now : Int} {st : RunState} {c : Customer} {cid' custId' : Nat}
    (hne : ¬(cid' = campaign.id ∧ custId' = c.id)) :
    findEv (processCustomer campaign oracle now st c).events cid' custId'
      = findEv st.events cid' custId' := by
  have hnew : evKey cid' custId' (newEvent campaign.id c.id) = false := by
    rcases Bool.eq_false_or_eq_true (evKey cid' custId' (newEvent campaign.id c.id))
        with h | h
    · exfalso
      have := (evKey_true_iff _ _ _).mp h
      simp only [newEvent] at this
      exact hne ⟨this.1.symm, this.2.symm⟩
    · exact h
  cases hfe : findEv st.events campaign.id c.id with
  | some e0 =>
    rw [processCustomer_found hfe]
    split
    · rfl
    · split
      · split
        · exact findEv_saveEvent_other (keyPres_markSent now) _ _ _ _ _ hne
        · exact findEv_saveEvent_other keyPres_markSendFailed _ _ _ _ _ hne
      · exact findEv_saveEvent_other (keyPres_markRenderFailed _) _ _ _ _ _ hne
  | none =>
    have happ : findEv (st.events ++ [newEvent campaign.id c.id]) cid' custId'
        = findEv st.events cid' custId' := findEv_append_other _ _ _ _ hnew
    rw [processCustomer_new hfe]
    split
    · split
      · rw [findEv_saveEvent_other (keyPres_markSent now) _ _ _ _ _ hne, happ]
      · rw [findEv_saveEvent_other keyPres_markSendFailed _ _ _ _ _ hne, happ]
    · rw [findEv_saveEvent_other (keyPres_markRenderFailed _) _ _ _ _ _ hne, happ]

theorem status_check_false {e : OutreachEvent} (h1 : ¬ e.status = "sent")
    (h2 : ¬ e.status = "skipped") :
    (e.status == "sent" || e.status == "skipped") = false := by
  simp [h1, h2]

theorem processCustomer_renderErr {campaign : Campaign} {oracle : Nat → Bool}
    {now : Int} {st : RunState} {c : Customer} {m : String}
    (hre : renderTemplate campaign.message_template c.first_name = .error m)
    (hpre : Nonterminal st.events campaign.id c.id) :
    (∃ e', findEv (processCustomer campaign oracle now st c).events campaign.id c.id
        = some e' ∧ e'.status = "failed" ∧ e'.error_message = some m)
    ∧ (processCustomer campaign oracle now st c).total_failed
        = st.total_failed + 1 := by
  cases hfe : findEv st.events campaign.id c.id with
  | some e =>
    have hp := hpre e hfe
    rw [processCustomer_found hfe,
      if_neg (by simp [status_check_false hp.1 hp.2]), hre]
    refine ⟨⟨markRenderFailed m e, ?_, rfl, rfl⟩, rfl⟩
    rw [findEv_saveEvent_self (keyPres_markRenderFailed m), hfe]
    rfl
  | none =>
    rw [processCustomer_new hfe, hre]
    refine ⟨⟨markRenderFailed m (newEvent campaign.id c.id), ?_, rfl, rfl⟩, rfl⟩
    rw [findEv_saveEvent_self (keyPres_markRenderFailed m),
      findEv_append_new _ _ _ _ hfe, if_pos (evKey_newEvent _ _)]
    rfl

theorem processCustomer_renderOk {campaign : Campaign} {oracle : Nat → Bool}
    {now : Int} {st : RunState} {c : Customer} {msg : String}
    (hre : renderTemplate campaign.message_template c.first_name = .ok msg)
    (hora : oracle st.attempt = true)
    (hpre : Nonterminal st.events campaign.id c.id) :
    ∃ e', findEv (processCustomer campaign oracle now st c).events campaign.id c.id
        = some e' ∧ e'.status = "sent" ∧ e'.sent_at = some now
        ∧ e'.error_message = none := by
  cases hfe : findEv st.events campaign.id c.id with
  | some e =>
    have hp := hpre e hfe
    rw [processCustomer_found hfe,
      if_neg (by simp [status_check_false hp.1 hp.2]), hre, if_pos hora]
    refine ⟨markSent now e, ?_, rfl, rfl, rfl⟩
    rw [findEv_saveEvent_self (keyPres_markSent now), hfe]
    rfl
  | none =>
    rw [processCustomer_new hfe, hre, if_pos hora]
    refine ⟨markSent now (newEvent campaign.id c.id), ?_, rfl, rfl, rfl⟩
    rw [findEv_saveEvent_self (keyPres_markSent now),
      findEv_append_new _ _ _ _ hfe, if_pos (evKey_newEvent _ _)]
    rfl

theorem processCustomer_failed_mono (campaign : Campaign) (oracle : Nat → Bool)
    (now : Int) (st : RunState) (c : Customer) :
    st.total_failed ≤ (processCustomer campaign oracle now st c).total_failed := by
  cases hfe : findEv st.events campaign.id c.id with
  | some e =>
    rw [processCustomer_found hfe]
    split
    · exact le_refl _
    · split
      · split
        · exact le_refl _
        · exact Nat.le_succ _
      · exact Nat.le_succ _
  | none =>
    rw [processCustomer_new hfe]
    split
    · split
      · exact le_refl _
      · exact Nat.le_succ _
    · exact Nat.le_succ _

/-! ### Batch-sequence lemmas -/

/-- Folding the per-customer body over a list of customers. -/
def processSeq (campaign : Campaign) (oracle : Nat → Bool) (now : Int)
    (st : RunState) (cs : List Customer) : RunState :=
  cs.foldl (processCustomer campaign oracle now) st

theorem processSeq_cons (campaign : Campaign) (oracle : Nat → Bool) (now : Int)
    (st : RunState) (c : Customer) (cs : List Customer) :
    processSeq campaign oracle now st (c :: cs)
      = processSeq campaign oracle now (processCustomer campaign oracle now st c) cs := rfl

theorem processSeq_keys_mono {campaign : Campaign} {oracle : Nat → Bool}
    {now : Int} {k : Nat × Nat} (cs : List Customer) :
    ∀ st : RunState, k ∈ eventKeys st.events →
      k ∈ eventKeys (processSeq campaign oracle now st cs).events := by
  induction cs with
  | nil => intro st h; exact h
  | cons a l ih =>
    intro st h
    rw [processSeq_cons]
    exact ih _ (processCustomer_keys_mono h)

theorem processSeq_keys_nodup {campaign : Campaign} {oracle : Nat → Bool}
    {now : Int} (cs : List Customer) :
    ∀ st : RunState, (eventKeys st.events).Nodup →
      (eventKeys (processSeq campaign oracle now st cs).events).Nodup := by
  induction cs with
  | nil => intro st h; exact h
  | cons a l ih =>
    intro st h
    rw [processSeq_cons]
    exact ih _ (processCustomer_keys_nodup h)

theorem processSeq_terminal_mem {campaign : Campaign} {oracle : Nat → Bool}
    {now : Int} {e : OutreachEvent} (cs : List Customer)
    (hst : e.status = "sent" ∨ e.status = "skipped") :
    ∀ st : RunState, (eventKeys st.events).Nodup → e ∈ st.events →
      e ∈ (processSeq campaign oracle now st cs).events := by
  induction cs with
  | nil => intro st _ h; exact h
  | cons a l ih =>
    intro st hnd he
    rw [processSeq_cons]
    exact ih _ (processCustomer_keys_nodup hnd)
      (processCustomer_terminal_mem hnd he hst)

theorem processSeq_key_present {campaign : Campaign} {oracle : Nat → Bool}
    {now : Int} {c : Customer} (cs : List Customer) (hc : c ∈ cs) :
    ∀ st : RunState,
      (campaign.id, c.id) ∈ eventKeys (processSeq campaign oracle now st cs).events := by
  induction cs with
  | nil => cases hc
  | cons a l ih =>
    intro st
    rw [processSeq_cons]
    rcases List.mem_cons.mp hc with rfl | hmem
    · exact processSeq_keys_mono l _ (processCustomer_key_present _ _ _ _ _)
    · exact ih hmem _

theorem processSeq_keys_of_all_present {campaign : Campaign} {oracle : Nat → Bool}
    {now : Int} (cs : List Customer) :
    ∀ st : RunState, (∀ c ∈ cs, (campaign.id, c.id) ∈ eventKeys st.events) →
      eventKeys (processSeq campaign oracle now st cs).events = eventKeys st.events := by
  induction cs with
  | nil => intro st _; rfl
  | cons a l ih =>
    intro st h
    rw [processSeq_cons]
    have hstep : eventKeys (processCustomer campaign oracle now st a).events
        = eventKeys st.events := by
      rw [processCustomer_keys, if_pos (h a (List.mem_cons_self a l))]
    rw [ih _ (fun c hc => by rw [hstep]; exact h c (List.mem_cons_of_mem a hc)), hstep]

theorem processSeq_failed_mono (campaign : Campaign) (oracle : Nat → Bool)
    (now : Int) (cs : List Customer) :
    ∀ st : RunState,
      st.total_failed ≤ (processSeq campaign oracle now st cs).total_failed := by
  induction cs with
  | nil => intro st; exact le_refl _
  | cons a l ih =>
    intro st
    rw [processSeq_cons]
    exact le_trans (processCustomer_failed_mono _ _ _ _ _) (ih _)

/-- Target state reached after a failed render of the message for the
customer with the given key: failed status with the render error recorded. -/
def FailedTarget (evs : List OutreachEvent) (cid custId : Nat) (m : String) : Prop :=
  ∃ e', findEv evs cid custId = some e'
    ∧ e'.status = "failed" ∧ e'.error_message = some m

/-- Target state reached after a successful send at time `now`. -/
def SentTarget (evs : List OutreachEvent) (cid custId : Nat) (now : Int) : Prop :=
  ∃ e', findEv evs cid custId = some e'
    ∧ e'.status = "sent" ∧ e'.sent_at = some now ∧ e'.error_message = none

theorem processSeq_failedTarget_stable {campaign : Campaign} {oracle : Nat → Bool}
    {now : Int} {c : Customer} {m : String}
    (hre : renderTemplate campaign.message_template c.first_name = .error m)
    (cs : List Customer) (hcs : ∀ c' ∈ cs, c'.id = c.id → c' = c) :
    ∀ st : RunState, FailedTarget st.events campaign.id c.id m →
      FailedTarget (processSeq campaign oracle now st cs).events campaign.id c.id m := by
  induction cs with
  | nil => intro st h; exact h
  | cons a l ih =>
    intro st h
    rw [processSeq_cons]
    refine ih (fun c' hc' => hcs c' (List.mem_cons_of_mem a hc')) _ ?_
    by_cases ha : a.id = c.id
    · have haeq : a = c := hcs a (List.mem_cons_self a l) ha
      subst haeq
      obtain ⟨e', hfe, hst, herr⟩ := h
      have hpre : Nonterminal st.events campaign.id a.id := by
        intro e he
        rw [hfe] at he
        cases he
        rw [hst]
        refine ⟨by decide, by decide⟩
      exact (processCustomer_renderErr hre hpre).1
    · obtain ⟨e', hfe, hst, herr⟩ := h
      refine ⟨e', ?_, hst, herr⟩
      rw [processCustomer_findEv_other (fun hcon => ha hcon.2.symm)]
      exact hfe

theorem processSeq_sentTarget_stable {campaign : Campaign} {oracle : Nat → Bool}
    {now : Int} {c : Customer}
    (cs : List Customer) (hcs : ∀ c' ∈ cs, c'.id = c.id → c' = c) :
    ∀ st : RunState, SentTarget st.events campaign.id c.id now →
      SentTarget (processSeq campaign oracle now st cs).events campaign.id c.id now := by
  induction cs with
  | nil => intro st h; exact h
  | cons a l ih =>
    intro st h
    rw [processSeq_cons]
    refine ih (fun c' hc' => hcs c' (List.mem_cons_of_mem a hc')) _ ?_
    obtain ⟨e', hfe, hst, hsa, herr⟩ := h
    by_cases ha : a.id = c.id
    · have haeq : a = c := hcs a (List.mem_cons_self a l) ha
      subst haeq
      rw [processCustomer_skip hfe (by rw [hst]; decide)]
      exact ⟨e', hfe, hst, hsa, herr⟩
    · refine ⟨e', ?_, hst, hsa, herr⟩
      rw [processCustomer_findEv_other (fun hcon => ha hcon.2.symm)]
      exact hfe

theorem processSeq_retry_renderErr {campaign : Campaign} {oracle : Nat → Bool}
    {now : Int} {c : Customer} {m : String}
    (hre : renderTemplate campaign.message_template c.first_name = .error m)
    (cs : List Customer) (hcs : ∀ c' ∈ cs, c'.id = c.id → c' = c) (hc : c ∈ cs) :
    ∀ st : RunState, Nonterminal st.events campaign.id c.id →
      FailedTarget (processSeq campaign oracle now st cs).events campaign.id c.id m := by
  induction cs with
  | nil => cases hc
  | cons a l ih =>
    intro st hpre
    rw [processSeq_cons]
    by_cases ha : a.id = c.id
    · have haeq : a = c := hcs a (List.mem_cons_self a l) ha
      subst haeq
      exact processSeq_failedTarget_stable hre l
        (fun c' hc' => hcs c' (List.mem_cons_of_mem a hc')) _
        (processCustomer_renderErr hre hpre).1
    · have hcl : c ∈ l := by
        rcases List.mem_cons.mp hc with rfl | hmem
        · exact absurd rfl ha
        · exact hmem
      refine ih (fun c' hc' => hcs c' (List.mem_cons_of_mem a hc')) hcl _ ?_
      intro e he
      rw [processCustomer_findEv_other (fun hcon => ha hcon.2.symm)] at he
      exact hpre e he

theorem processSeq_retry_renderOk {campaign : Campaign} {oracle : Nat → Bool}
    {now : Int} {c : Customer} {msg : String}
    (hre : renderTemplate campaign.message_template c.first_name = .ok msg)
    (hora : ∀ k, oracle k = true)
    (cs : List Customer) (hcs : ∀ c' ∈ cs, c'.id = c.id → c' = c) (hc : c ∈ cs) :
    ∀ st : RunState, Nonterminal st.events campaign.id c.id →
      SentTarget (processSeq campaign oracle now st cs).events campaign.id c.id now := by
  induction cs with
  | nil => cases hc
  | cons a l ih =>
    intro st hpre
    rw [processSeq_cons]
    by_cases ha : a.id = c.id
    · have haeq : a = c := hcs a (List.mem_cons_self a l) ha
      subst haeq
      exact processSeq_sentTarget_stable l
        (fun c' hc' => hcs c' (List.mem_cons_of_mem a hc')) _
        (processCustomer_renderOk hre (hora st.attempt) hpre)
    · have hcl : c ∈ l := by
        rcases List.mem_cons.mp hc with rfl | hmem
        · exact absurd rfl ha
        · exact hmem
      refine ih (fun c' hc' => hcs c' (List.mem_cons_of_mem a hc')) hcl _ ?_
      intro e he
      rw [processCustomer_findEv_other (fun hcon => ha hcon.2.symm)] at he
      exact hpre e he

theorem processSeq_renderErr_failed_count {campaign : Campaign} {oracle : Nat → Bool}
    {now : Int} {c : Customer} {m : String}
    (hre : renderTemplate campaign.message_template c.first_name = .error m)
    (cs : List Customer) (hcs : ∀ c' ∈ cs, c'.id = c.id → c' = c) (hc : c ∈ cs) :
    ∀ st : RunState, Nonterminal st.events campaign.id c.id →
      st.total_failed + 1 ≤ (processSeq campaign oracle now st cs).total_failed := by
  induction cs with
  | nil => cases hc
  | cons a l ih =>
    intro st hpre
    rw [processSeq_cons]
    by_cases ha : a.id = c.id
    · have haeq : a = c := hcs a (List.mem_cons_self a l) ha
      subst haeq
      have hstep := (@processCustomer_renderErr campaign oracle now st a m hre hpre).2
      calc st.total_failed + 1
          = (processCustomer campaign oracle now st a).total_failed := hstep.symm
        _ ≤ _ := processSeq_failed_mono _ _ _ _ _
    · have hcl : c ∈ l := by
        rcases List.mem_cons.mp hc with rfl | hmem
        · exact absurd rfl ha
        · exact hmem
      have hmono := processCustomer_failed_mono campaign oracle now st a
      have := ih (fun c' hc' => hcs c' (List.mem_cons_of_mem a hc')) hcl
        (processCustomer campaign oracle now st a)
        (by
          intro e he
          rw [processCustomer_findEv_other (fun hcon => ha hcon.2.symm)] at he
          exact hpre e he)
      omega

/-! ### Batching structure -/

/-- The per-batch customer lists materialized by the batch loop: for each
start offset, the customers whose id falls in that slice of the id list. -/
def batchesOf (customersTable : List Customer) (ids : List Nat) : List (List Customer) :=
  (batchStarts ids.length).map (fun i =>
    customersTable.filter (fun c => ((ids.drop i).take batch_size).contains c.id))

theorem runBatches_eq (campaign : Campaign) (oracle : Nat → Bool) (now : Int)
    (table : List Customer) (ids : List Nat) (st : RunState) :
    runBatches campaign oracle now table ids st
      = processSeq campaign oracle now st (batchesOf table ids).flatten := by
  rw [processSeq, batchesOf, List.foldl_flatten, List.foldl_map]
  rfl

theorem mem_batchesOf {table : List Customer} {ids : List Nat} {c : Customer}
    (hc : c ∈ table) (hid : c.id ∈ ids) :
    c ∈ (batchesOf table ids).flatten := by
  rw [List.mem_flatten]
  obtain ⟨j, hj, hgetj⟩ := List.mem_iff_getElem.mp hid
  refine ⟨table.filter (fun c' =>
      ((ids.drop ((j / batch_size) * batch_size)).take batch_size).contains c'.id),
    ?_, ?_⟩
  · rw [batchesOf, List.mem_map]
    refine ⟨(j / batch_size) * batch_size, ?_, rfl⟩
    rw [batchStarts, List.mem_map]
    refine ⟨j / batch_size, ?_, rfl⟩
    rw [List.mem_range]
    simp only [batch_size]
    omega
  · rw [List.mem_filter]
    refine ⟨hc, ?_⟩
    have hmemslice : c.id ∈ (ids.drop ((j / batch_size) * batch_size)).take batch_size := by
      rw [List.mem_iff_getElem]
      refine ⟨j - (j / batch_size) * batch_size, ?_, ?_⟩
      · rw [List.length_take, List.length_drop]
        simp only [batch_size]
        omega
      · rw [List.getElem_take, List.getElem_drop]
        have hidx : (j / batch_size) * batch_size + (j - (j / batch_size) * batch_size)
            = j := by
          simp only [batch_size]
          omega
        exact (getElem_congr hidx).trans hgetj
    simpa using hmemslice

theorem mem_batchesOf_sub {table : List Customer} {ids : List Nat} {c : Customer}
    (h : c ∈ (batchesOf table ids).flatten) : c ∈ table ∧ c.id ∈ ids := by
  rw [List.mem_flatten] at h
  obtain ⟨l, hl, hcl⟩ := h
  rw [batchesOf, List.mem_map] at hl
  obtain ⟨i, hi, rfl⟩ := hl
  have h2 := List.mem_filter.mp hcl
  refine ⟨h2.1, ?_⟩
  have h3 : c.id ∈ (ids.drop i).take batch_size := by simpa using h2.2
  exact List.mem_of_mem_drop (List.mem_of_mem_take h3)

/-! ### Segment facts -/

theorem segmentCustomers_sublist {campaign : Campaign} {now : Int}
    {customers seg : List Customer}
    (h : segmentCustomers campaign now customers = some seg) :
    seg.Sublist customers := by
  simp only [segmentCustomers] at h
  split at h
  · rw [Option.some.injEq] at h
    subst h
    exact (List.filter_sublist _).trans (List.filter_sublist _)
  · split at h
    · rw [Option.some.injEq] at h
      subst h
      exact (List.filter_sublist _).trans (List.filter_sublist _)
    · cases h

theorem segmentCustomers_ignores_status (campaign : Campaign) (s : String)
    (now : Int) (cs : List Customer) :
    segmentCustomers { campaign with status := s } now cs
      = segmentCustomers campaign now cs := rfl

/-! ### Run-level wiring -/

/-- The initial run state of the batch loop (counters zero, events table as
found in the database). -/
def initState (db : DB) : RunState :=
  { events := db.events, total_processed := 0, total_sent := 0,
    total_failed := 0, attempt := 0 }

/-- The sequence of customers the batch loop processes, in order. -/
def runCustomers (db : DB) (seg : List Customer) : List Customer :=
  (batchesOf db.customers (seg.map (fun c => c.id))).flatten

theorem setCampaignStatus_events (db : DB) (cid : Nat) (s : String) :
    (setCampaignStatus db cid s).events = db.events := rfl

theorem setCampaignStatus_customers (db : DB) (cid : Nat) (s : String) :
    (setCampaignStatus db cid s).customers = db.customers := rfl

theorem run_eq_of_missing {db : DB} {cid : Nat} (oracle : Nat → Bool) (now : Int)
    (h : findCampaign db cid = none) :
    run_campaign_task oracle now db cid = (db, .ok (.errorDict cid)) := by
  simp [run_campaign_task, run_campaign_outer, run_campaign_inner, h]

theorem run_eq_of_unknown {db : DB} {cid : Nat} {campaign : Campaign}
    (oracle : Nat → Bool) (now : Int)
    (hc : findCampaign db cid = some campaign)
    (hseg : segmentCustomers campaign now db.customers = none) :
    run_campaign_task oracle now db cid = (db, .ok .retNone) := by
  simp [run_campaign_task, run_campaign_outer, run_campaign_inner, hc, hseg]

theorem run_happy {db : DB} {cid : Nat} {campaign : Campaign} {seg : List Customer}
    (oracle : Nat → Bool) (now : Int)
    (hc : findCampaign db cid = some campaign)
    (hseg : segmentCustomers campaign now db.customers = some seg) :
    run_campaign_task oracle now db cid
      = (setCampaignStatus
          { db with events := (processSeq campaign oracle now (initState db)
              (runCustomers db seg)).events }
          cid "completed",
        .ok (.stats cid
          (processSeq campaign oracle now (initState db) (runCustomers db seg)).total_processed
          (processSeq campaign oracle now (initState db) (runCustomers db seg)).total_sent
          (processSeq campaign oracle now (initState db) (runCustomers db seg)).total_failed)) := by
  simp only [run_campaign_task, run_campaign_inner, hc, hseg, runBatches_eq,
    run_campaign_outer, initState, runCustomers]

theorem run_happy_events {db : DB} {cid : Nat} {campaign : Campaign}
    {seg : List Customer} (oracle : Nat → Bool) (now : Int)
    (hc : findCampaign db cid = some campaign)
    (hseg : segmentCustomers campaign now db.customers = some seg) :
    (run_campaign_task oracle now db cid).1.events
      = (processSeq campaign oracle now (initState db) (runCustomers db seg)).events := by
  rw [run_happy oracle now hc hseg]
  rfl

/-! ### Claim C2 -/

/-- C2: for every campaign, running the task twice in sequence (same clock)
yields the same final key set and row count of OutreachEvents as running it
once; keys stay unique per (campaign, customer); every event that is sent
or skipped at the start of a run is left untouched by that run; and every
event left queued or failed by the first run whose customer is in the
segment is attempted again by the second run (deterministically failed with
the render error when the template does not render, sent when it renders
and every send succeeds).  The uniqueness hypotheses mirror the database
constraints: unique_together (campaign, customer) on OutreachEvent and the
customer primary key. -/
theorem campaign_run_idempotent (oracle₁ oracle₂ : Nat → Bool) (now : Int)
    (db db₁ db₂ : DB) (cid : Nat)
    (hkeys : (eventKeys db.events).Nodup)
    (hids : (db.customers.map (fun c => c.id)).Nodup)
    (h₁ : db₁ = (run_campaign_task oracle₁ now db cid).1)
    (h₂ : db₂ = (run_campaign_task oracle₂ now db₁ cid).1) :
    ((eventKeys db₁.events).Nodup ∧ (eventKeys db₂.events).Nodup)
    ∧ eventKeys db₂.events = eventKeys db₁.events
    ∧ db₂.events.length = db₁.events.length
    ∧ (∀ e ∈ db.events, e.status = "sent" ∨ e.status = "skipped" → e ∈ db₁.events)
    ∧ (∀ e ∈ db₁.events, e.status = "sent" ∨ e.status = "skipped" → e ∈ db₂.events)
    ∧ (∀ campaign seg, findCampaign db cid = some campaign →
        segmentCustomers campaign now db.customers = some seg →
        ∀ c ∈ seg, ∀ e ∈ db₁.events, evKey campaign.id c.id e = true →
          e.status = "queued" ∨ e.status = "failed" →
          (∀ m, renderTemplate campaign.message_template c.first_name = .error m →
            FailedTarget db₂.events campaign.id c.id m)
          ∧ (∀ msg, renderTemplate campaign.message_template c.first_name = .ok msg →
              (∀ k, oracle₂ k = true) →
              SentTarget db₂.events campaign.id c.id now)) := by
  cases hfc : findCampaign db cid with
  | none =>
    have e₁ : db₁ = db := by rw [h₁, run_eq_of_missing oracle₁ now hfc]
    have e₂ : db₂ = db := by rw [h₂, e₁, run_eq_of_missing oracle₂ now hfc]
    rw [e₁, e₂]
    refine ⟨⟨hkeys, hkeys⟩, rfl, rfl, fun e he _ => he, fun e he _ => he, ?_⟩
    intro campaign seg hcm
    cases hcm
  | some campaign0 =>
    cases hsg : segmentCustomers campaign0 now db.customers with
    | none =>
      have e₁ : db₁ = db := by rw [h₁, run_eq_of_unknown oracle₁ now hfc hsg]
      have e₂ : db₂ = db := by rw [h₂, e₁, run_eq_of_unknown oracle₂ now hfc hsg]
      rw [e₁, e₂]
      refine ⟨⟨hkeys, hkeys⟩, rfl, rfl, fun e he _ => he, fun e he _ => he, ?_⟩
      intro campaign seg hcm hsegm
      injection hcm with hq
      subst hq
      rw [hsg] at hsegm
      cases hsegm
    | some seg0 =>
      have hrun1 := run_happy oracle₁ now hfc hsg
      have hdb1 : db₁ = setCampaignStatus
          { db with events := (processSeq campaign0 oracle₁ now (initState db)
              (runCustomers db seg0)).events } cid "completed" := by
        rw [h₁, hrun1]
      have hdb1ev : db₁.events = (processSeq campaign0 oracle₁ now (initState db)
          (runCustomers db seg0)).events := by rw [hdb1]; rfl
      have hdb1cust : db₁.customers = db.customers := by rw [hdb1]; rfl
      have hfc2 : findCampaign db₁ cid
          = some { campaign0 with status := "completed" } := by
        rw [hdb1, findCampaign_setStatus, findCampaign_events, hfc]
        rfl
      have hsg2 : segmentCustomers { campaign0 with status := "completed" } now
          db₁.customers = some seg0 := by
        rw [hdb1cust, segmentCustomers_ignores_status]
        exact hsg
      have hrun2 := run_happy oracle₂ now hfc2 hsg2
      have hdb2 : db₂ = setCampaignStatus
          { db₁ with events := (processSeq { campaign0 with status := "completed" }
              oracle₂ now (initState db₁) (runCustomers db₁ seg0)).events }
          cid "completed" := by
        rw [h₂, hrun2]
      have hdb2ev : db₂.events = (processSeq { campaign0 with status := "completed" }
          oracle₂ now (initState db₁) (runCustomers db₁ seg0)).events := by
        rw [hdb2]; rfl
      have hrc : runCustomers db₁ seg0 = runCustomers db seg0 := by
        rw [runCustomers, runCustomers, hdb1cust]
      have hkeys1 : (eventKeys db₁.events).Nodup := by
        rw [hdb1ev]
        exact processSeq_keys_nodup _ _ hkeys
      have hseg_sub : seg0.Sublist db.customers := segmentCustomers_sublist hsg
      have hcover : ∀ c ∈ seg0, (campaign0.id, c.id) ∈ eventKeys db₁.events := by
        intro c hcseg
        rw [hdb1ev]
        exact processSeq_key_present _
          (mem_batchesOf (List.Sublist.mem hcseg hseg_sub)
            (List.mem_map_of_mem _ hcseg)) _
      have hall2 : ∀ c ∈ runCustomers db₁ seg0,
          (campaign0.id, c.id) ∈ eventKeys (initState db₁).events := by
        intro c hcm
        rw [hrc] at hcm
        obtain ⟨hcdb, hcid⟩ := mem_batchesOf_sub hcm
        obtain ⟨c0, hc0seg, hc0id⟩ := List.mem_map.mp hcid
        have : (campaign0.id, c.id) = (campaign0.id, c0.id) := by rw [hc0id]
        rw [show (initState db₁).events = db₁.events from rfl, this]
        exact hcover c0 hc0seg
      have hkeys_eq : eventKeys db₂.events = eventKeys db₁.events := by
        rw [hdb2ev]
        exact processSeq_keys_of_all_present _ _ hall2
      have hkeys2 : (eventKeys db₂.events).Nodup := by
        rw [hkeys_eq]; exact hkeys1
      have hlen : db₂.events.length = db₁.events.length := by
        have hl := congrArg List.length hkeys_eq
        simpa [eventKeys] using hl
      have hterm1 : ∀ e ∈ db.events, e.status = "sent" ∨ e.status = "skipped" →
          e ∈ db₁.events := by
        intro e he hst
        rw [hdb1ev]
        exact processSeq_terminal_mem _ hst _ hkeys he
      have hterm2 : ∀ e ∈ db₁.events, e.status = "sent" ∨ e.status = "skipped" →
          e ∈ db₂.events := by
        intro e he hst
        rw [hdb2ev]
        exact processSeq_terminal_mem _ hst _ hkeys1 he
      refine ⟨⟨hkeys1, hkeys2⟩, hkeys_eq, hlen, hterm1, hterm2, ?_⟩
      intro campaign seg hcm hsegm c hcseg e he hek hst
      injection hcm with hq
      subst hq
      rw [hsg] at hsegm
      injection hsegm with hq2
      subst hq2
      have hcdb : c ∈ db.customers := List.Sublist.mem hcseg hseg_sub
      have hCS2 : c ∈ runCustomers db₁ seg0 := by
        rw [hrc]
        exact mem_batchesOf hcdb (List.mem_map_of_mem _ hcseg)
      have hcs : ∀ c' ∈ runCustomers db₁ seg0, c'.id = c.id → c' = c := by
        intro c' hc' hcc
        have hc'' : c' ∈ runCustomers db seg0 := by rw [hrc] at hc'; exact hc'
        exact List.inj_on_of_nodup_map hids (mem_batchesOf_sub hc'').1 hcdb hcc
      have hfe1 : findEv db₁.events campaign0.id c.id = some e :=
        findEv_of_nodup hkeys1 he hek
      have hpre : Nonterminal (initState db₁).events campaign0.id c.id := by
        intro e' he'
        rw [show (initState db₁).events = db₁.events from rfl, hfe1] at he'
        injection he' with hq3
        subst hq3
        rcases hst with h | h <;> rw [h] <;> exact ⟨by decide, by decide⟩
      constructor
      · intro m hre
        have hres := @processSeq_retry_renderErr
          { campaign0 with status := "completed" } oracle₂ now c m hre
          (runCustomers db₁ seg0) hcs hCS2 (initState db₁) hpre
        rw [hdb2ev]
        exact hres
      · intro msg hre hora
        have hres := @processSeq_retry_renderOk
          { campaign0 with status := "completed" } oracle₂ now c msg hre hora
          (runCustomers db₁ seg0) hcs hCS2 (initState db₁) hpre
        rw [hdb2ev]
        exact hres

/-- Example second customer. -/
def custBW : Customer :=
  { id := 2, restaurantId := 1, email := "bo@example.com", first_name := "Bo",
    total_spend_cents := 7000, last_visit_at := some 100 }

/-- Example campaign matching every spender. -/
def campAllW : Campaign :=
  { id := 1, restaurantId := 1, name := "all", status := "running",
    segment_type := "high_spenders", segment_value := 0,
    message_template := "Hi {first_name}" }

/-- Example pre-existing sent event for the first customer. -/
def sentEventW : OutreachEvent :=
  { campaignId := 1, customerId := 1, channel := "email", status := "sent",
    error_message := none, sent_at := some 50 }

/-- Example database with one already-sent event. -/
def dbC2W : DB :=
  { campaigns := [campAllW], customers := [freshW, custBW],
    events := [sentEventW] }

/-- The example database after one run. -/
def runOnceW : DB := (run_campaign_task (fun _ => true) 0 dbC2W 1).1

/-- The example database after a second run. -/
def runTwiceW : DB := (run_campaign_task (fun _ => true) 0 runOnceW 1).1

theorem campaign_run_idempotent_witness :
    ((eventKeys runOnceW.events).Nodup ∧ (eventKeys runTwiceW.events).Nodup)
    ∧ eventKeys runTwiceW.events = eventKeys runOnceW.events
    ∧ runTwiceW.events.length = runOnceW.events.length
    ∧ (∀ e ∈ dbC2W.events, e.status = "sent" ∨ e.status = "skipped" →
        e ∈ runOnceW.events)
    ∧ (∀ e ∈ runOnceW.events, e.status = "sent" ∨ e.status = "skipped" →
        e ∈ runTwiceW.events)
    ∧ (∀ campaign seg, findCampaign dbC2W 1 = some campaign →
        segmentCustomers campaign 0 dbC2W.customers = some seg →
        ∀ c ∈ seg, ∀ e ∈ runOnceW.events, evKey campaign.id c.id e = true →
          e.status = "queued" ∨ e.status = "failed" →
          (∀ m, renderTemplate campaign.message_template c.first_name = .error m →
            FailedTarget runTwiceW.events campaign.id c.id m)
          ∧ (∀ msg, renderTemplate campaign.message_template c.first_name = .ok msg →
              (∀ k : Nat, (fun _ : Nat => true) k = true) →
              SentTarget runTwiceW.events campaign.id c.id 0)) :=
  campaign_run_idempotent (fun _ => true) (fun _ => true) 0 dbC2W runOnceW runTwiceW 1
    (by decide) (by decide) rfl rfl

/-! ### Claim C4 -/

/-- C4: a failure while rendering the message template for a customer is
caught per event: the run still returns the stats dict and completes the
campaign; the affected event ends failed with the error text recorded; the
failure is counted in the failed total; and every other segment customer is
still reached (its event exists afterwards) — one bad event never aborts
the batch or the run. -/
theorem render_failure_isolated (oracle : Nat → Bool) (now : Int) (db : DB)
    (cid : Nat) (campaign : Campaign) (seg : List Customer) (c : Customer)
    (m : String)
    (hids : (db.customers.map (fun c => c.id)).Nodup)
    (hc : findCampaign db cid = some campaign)
    (hseg : segmentCustomers campaign now db.customers = some seg)
    (hcseg : c ∈ seg)
    (hre : renderTemplate campaign.message_template c.first_name = .error m)
    (hpre : Nonterminal db.events campaign.id c.id) :
    (∃ p s f, (run_campaign_task oracle now db cid).2 = .ok (.stats cid p s f))
    ∧ campaignStatus (run_campaign_task oracle now db cid).1 cid = some "completed"
    ∧ FailedTarget (run_campaign_task oracle now db cid).1.events campaign.id c.id m
    ∧ (∀ p s f, (run_campaign_task oracle now db cid).2 = .ok (.stats cid p s f) →
        1 ≤ f)
    ∧ (∀ c' ∈ seg, (campaign.id, c'.id) ∈
        eventKeys (run_campaign_task oracle now db cid).1.events) := by
  have hrun := run_happy oracle now hc hseg
  have hev : (run_campaign_task oracle now db cid).1.events
      = (processSeq campaign oracle now (initState db) (runCustomers db seg)).events := by
    rw [hrun]
    rfl
  have hsub := segmentCustomers_sublist hseg
  have hcdb : c ∈ db.customers := List.Sublist.mem hcseg hsub
  have hCS : c ∈ runCustomers db seg :=
    mem_batchesOf hcdb (List.mem_map_of_mem _ hcseg)
  have hcs : ∀ c' ∈ runCustomers db seg, c'.id = c.id → c' = c := by
    intro c' hc' hcc
    exact List.inj_on_of_nodup_map hids (mem_batchesOf_sub hc').1 hcdb hcc
  have hpre' : Nonterminal (initState db).events campaign.id c.id := hpre
  refine ⟨?_, ?_, ?_, ?_, ?_⟩
  · rw [hrun]
    exact ⟨_, _, _, rfl⟩
  · rw [hrun]
    simp [campaignStatus, findCampaign_setStatus, findCampaign_events, hc]
  · rw [hev]
    exact processSeq_retry_renderErr hre _ hcs hCS _ hpre'
  · intro p s f hpf
    rw [hrun] at hpf
    simp only [Except.ok.injEq, TaskReturn.stats.injEq] at hpf
    have hcount := @processSeq_renderErr_failed_count campaign oracle now c m
      hre _ hcs hCS (initState db) hpre'
    have hzero : (initState db).total_failed = 0 := rfl
    omega
  · intro c' hc'seg
    rw [hev]
    exact processSeq_key_present _
      (mem_batchesOf (List.Sublist.mem hc'seg hsub)
        (List.mem_map_of_mem _ hc'seg)) _

/-- Example malformed template: a single unmatched opening brace. -/
def badTemplateW : String := String.mk [lbrace]

/-- Example campaign whose template cannot render. -/
def campBadTplW : Campaign :=
  { id := 1, restaurantId := 1, name := "bad", status := "running",
    segment_type := "high_spenders", segment_value := 0,
    message_template := badTemplateW }

/-- Example database for the render-failure scenario. -/
def dbC4W : DB := { campaigns := [campBadTplW], customers := [freshW], events := [] }

theorem render_failure_isolated_witness :
    (∃ p s f, (run_campaign_task (fun _ => true) 0 dbC4W 1).2 = .ok (.stats 1 p s f))
    ∧ campaignStatus (run_campaign_task (fun _ => true) 0 dbC4W 1).1 1
        = some "completed"
    ∧ FailedTarget (run_campaign_task (fun _ => true) 0 dbC4W 1).1.events
        campBadTplW.id freshW.id braceErr
    ∧ (∀ p s f, (run_campaign_task (fun _ => true) 0 dbC4W 1).2
        = .ok (.stats 1 p s f) → 1 ≤ f)
    ∧ (∀ c' ∈ [freshW], (campBadTplW.id, c'.id) ∈
        eventKeys (run_campaign_task (fun _ => true) 0 dbC4W 1).1.events) :=
  render_failure_isolated (fun _ => true) 0 dbC4W 1 campBadTplW [freshW] freshW
    braceErr (by decide) (by decide) (by decide) (by decide)
    (by rfl) (by intro e he; simp [dbC4W, findEv] at he)

/-! ### Interleaved pause requests (claim C8) -/

theorem findCampaign_setStatus_isSome (d : DB) (cid : Nat) (s : String) :
    (findCampaign (setCampaignStatus d cid s) cid).isSome
      = (findCampaign d cid).isSome := by
  rw [findCampaign_setStatus]
  cases findCampaign d cid <;> rfl

theorem extStep_spec {campaign : Campaign} {oracle : Nat → Bool} {now : Int}
    {cid : Nat} {interfere : Nat → DB → DB} {ids : List Nat} {table : List Customer}
    (hint : ∀ b d, ∃ s, interfere b d = setCampaignStatus d cid s)
    (p : Nat × Nat) (d : DB) (st : RunState)
    (hd : d.customers = table) (hdev : d.events = st.events) :
    (extStep campaign oracle now interfere ids (d, st) p).2
      = processBatch campaign oracle now table ((ids.drop p.2).take batch_size) st
    ∧ (extStep campaign oracle now interfere ids (d, st) p).1.customers = table
    ∧ (extStep campaign oracle now interfere ids (d, st) p).1.events
        = (extStep campaign oracle now interfere ids (d, st) p).2.events
    ∧ ((findCampaign d cid).isSome = true →
        (findCampaign (extStep campaign oracle now interfere ids (d, st) p).1 cid).isSome
          = true) := by
  have hc1 : (if (p.1 == 0 : Bool) then d else interfere p.1 d).customers = table := by
    split
    · exact hd
    · obtain ⟨s, hs⟩ := hint p.1 d
      rw [hs]
      exact hd
  have hc2 : (if (p.1 == 0 : Bool) then d else interfere p.1 d).events = st.events := by
    split
    · exact hdev
    · obtain ⟨s, hs⟩ := hint p.1 d
      rw [hs]
      exact hdev
  have hc3 : (findCampaign d cid).isSome = true →
      (findCampaign (if (p.1 == 0 : Bool) then d else interfere p.1 d) cid).isSome
        = true := by
    intro h
    split
    · exact h
    · obtain ⟨s, hs⟩ := hint p.1 d
      rw [hs, findCampaign_setStatus_isSome]
      exact h
  have heta : ({ st with events := st.events } : RunState) = st := rfl
  have hstep : (extStep campaign oracle now interfere ids (d, st) p).2
      = processBatch campaign oracle now table ((ids.drop p.2).take batch_size) st := by
    show processBatch campaign oracle now
        (if (p.1 == 0 : Bool) then d else interfere p.1 d).customers
        ((ids.drop p.2).take batch_size)
        { st with events := (if (p.1 == 0 : Bool) then d else interfere p.1 d).events }
      = processBatch campaign oracle now table ((ids.drop p.2).take batch_size) st
    rw [hc1, hc2]
  refine ⟨hstep, hc1, rfl, hc3⟩

theorem extStep_fold {campaign : Campaign} {oracle : Nat → Bool} {now : Int}
    {cid : Nat} {interfere : Nat → DB → DB} {ids : List Nat} {table : List Customer}
    (hint : ∀ b d, ∃ s, interfere b d = setCampaignStatus d cid s)
    (l : List (Nat × Nat)) :
    ∀ (d : DB) (st : RunState), d.customers = table → d.events = st.events →
      (l.foldl (extStep campaign oracle now interfere ids) (d, st)).2
        = l.foldl (fun st p => processBatch campaign oracle now table
            ((ids.drop p.2).take batch_size) st) st
      ∧ (l.foldl (extStep campaign oracle now interfere ids) (d, st)).1.events
          = (l.foldl (extStep campaign oracle now interfere ids) (d, st)).2.events
      ∧ ((findCampaign d cid).isSome = true →
          (findCampaign (l.foldl (extStep campaign oracle now interfere ids) (d, st)).1
            cid).isSome = true) := by
  induction l with
  | nil =>
    intro d st hd hdev
    exact ⟨rfl, hdev, fun h => h⟩
  | cons p l ih =>
    intro d st hd hdev
    rw [List.foldl_cons, List.foldl_cons]
    obtain ⟨h1, h2, h3, h4⟩ := extStep_spec hint p d st hd hdev
    have hsplit : extStep campaign oracle now interfere ids (d, st) p
        = ((extStep campaign oracle now interfere ids (d, st) p).1,
           processBatch campaign oracle now table ((ids.drop p.2).take batch_size) st) := by
      rw [← h1]
    rw [hsplit]
    have hev' : (extStep campaign oracle now interfere ids (d, st) p).1.events
        = (processBatch campaign oracle now table
            ((ids.drop p.2).take batch_size) st).events :=
      h3.trans (congrArg RunState.events h1)
    obtain ⟨hA, hB, hC⟩ := ih _ _ h2 hev'
    exact ⟨hA, hB, fun h => hC (h4 h)⟩

theorem enum_fold_eq_runBatches (campaign : Campaign) (oracle : Nat → Bool)
    (now : Int) (table : List Customer) (ids : List Nat) (st : RunState) :
    (batchStarts ids.length).enum.foldl
        (fun st p => processBatch campaign oracle now table
          ((ids.drop p.2).take batch_size) st) st
      = runBatches campaign oracle now table ids st := by
  rw [runBatches]
  conv_rhs => rw [← List.enum_map_snd (batchStarts ids.length)]
  rw [List.foldl_map]

theorem run_with_external_happy {db : DB} {cid : Nat} {campaign : Campaign}
    {seg : List Customer} (oracle : Nat → Bool) (now : Int)
    (interfere : Nat → DB → DB)
    (hc : findCampaign db cid = some campaign)
    (hseg : segmentCustomers campaign now db.customers = some seg) :
    run_with_external oracle now cid interfere db
      = (setCampaignStatus
          ((batchStarts (seg.map (fun c => c.id)).length).enum.foldl
            (extStep campaign oracle now interfere (seg.map (fun c => c.id)))
            (db, initState db)).1 cid "completed",
        .ok (.stats cid
          ((batchStarts (seg.map (fun c => c.id)).length).enum.foldl
            (extStep campaign oracle now interfere (seg.map (fun c => c.id)))
            (db, initState db)).2.total_processed
          ((batchStarts (seg.map (fun c => c.id)).length).enum.foldl
            (extStep campaign oracle now interfere (seg.map (fun c => c.id)))
            (db, initState db)).2.total_sent
          ((batchStarts (seg.map (fun c => c.id)).length).enum.foldl
            (extStep campaign oracle now interfere (seg.map (fun c => c.id)))
            (db, initState db)).2.total_failed)) := by
  simp only [run_with_external, hc, hseg, initState]

/-- Core fact behind claim C8: a concurrent actor that only overwrites the
campaign's status field (the shape of an external pause request) at batch
boundaries changes nothing about the run — same events, same return value —
and the final status write still overwrites it with completed. -/
theorem run_with_external_spec (oracle : Nat → Bool) (now : Int) (cid : Nat)
    (interfere : Nat → DB → DB) (db : DB)
    (hint : ∀ b d, ∃ s, interfere b d = setCampaignStatus d cid s) :
    (run_with_external oracle now cid interfere db).1.events
        = (run_campaign_task oracle now db cid).1.events
    ∧ (run_with_external oracle now cid interfere db).2
        = (run_campaign_task oracle now db cid).2
    ∧ (∀ campaign seg, findCampaign db cid = some campaign →
        segmentCustomers campaign now db.customers = some seg →
        campaignStatus (run_with_external oracle now cid interfere db).1 cid
          = some "completed") := by
  cases hfc : findCampaign db cid with
  | none =>
    have hx : run_with_external oracle now cid interfere db
        = (db, .ok (.errorDict cid)) := by
      simp only [run_with_external, hfc]
    rw [hx, run_eq_of_missing oracle now hfc]
    refine ⟨rfl, rfl, ?_⟩
    intro campaign seg hcm
    cases hcm
  | some campaign0 =>
    cases hsg : segmentCustomers campaign0 now db.customers with
    | none =>
      have hx : run_with_external oracle now cid interfere db
          = (db, .ok .retNone) := by
        simp only [run_with_external, hfc, hsg]
      rw [hx, run_eq_of_unknown oracle now hfc hsg]
      refine ⟨rfl, rfl, ?_⟩
      intro campaign seg hcm hsegm
      injection hcm with hq
      subst hq
      rw [hsg] at hsegm
      cases hsegm
    | some seg0 =>
      have hext := run_with_external_happy oracle now interfere hfc hsg
      have hfold := @extStep_fold campaign0 oracle now cid interfere
        (seg0.map (fun c => c.id)) db.customers hint
        ((batchStarts ((seg0.map (fun c => c.id)).length)).enum) db (initState db)
        rfl rfl
      obtain ⟨hA, hB, hC⟩ := hfold
      rw [enum_fold_eq_runBatches] at hA
      have hrt := run_happy oracle now hfc hsg
      have hrb : runBatches campaign0 oracle now db.customers
          (seg0.map (fun c => c.id)) (initState db)
          = processSeq campaign0 oracle now (initState db) (runCustomers db seg0) := by
        rw [runBatches_eq]
        rfl
      rw [hrb] at hA
      refine ⟨?_, ?_, ?_⟩
      · rw [hext, hrt]
        show ((batchStarts ((seg0.map (fun c => c.id)).length)).enum.foldl
            (extStep campaign0 oracle now interfere (seg0.map (fun c => c.id)))
            (db, initState db)).1.events
          = (processSeq campaign0 oracle now (initState db) (runCustomers db seg0)).events
        rw [hB, hA]
      · rw [hext, hrt]
        rw [hA]
      · intro campaign seg hcm hsegm
        injection hcm with hq
        subst hq
        rw [hext]
        have hsome : (findCampaign ((batchStarts ((seg0.map (fun c => c.id)).length)).enum.foldl
            (extStep campaign0 oracle now interfere (seg0.map (fun c => c.id)))
            (db, initState db)).1 cid).isSome = true := by
          apply hC
          rw [hfc]
          rfl
        obtain ⟨cp, hcp⟩ := Option.isSome_iff_exists.mp hsome
        rw [campaignStatus, findCampaign_setStatus, hcp]
        rfl

/-! ### Claim C8 -/

/-- C8 (amended): an external pause request arriving at batch boundaries is
not observed by `run_campaign_task`: the interleaved run produces exactly
the events and return value of the undisturbed run, and when the campaign
and segment resolve, the final status write overwrites the pause with
completed.  (The batch loop of crm/tasks.py lines 54-106 never re-reads
campaign.status, and line 109 unconditionally overwrites it.) -/
theorem pause_between_batches_not_observed (oracle : Nat → Bool) (now : Int)
    (cid : Nat) (interfere : Nat → DB → DB) (db : DB)
    (hint : ∀ b d, ∃ s, interfere b d = setCampaignStatus d cid s) :
    (run_with_external oracle now cid interfere db).1.events
        = (run_campaign_task oracle now db cid).1.events
    ∧ (run_with_external oracle now cid interfere db).2
        = (run_campaign_task oracle now db cid).2
    ∧ (∀ campaign seg, findCampaign db cid = some campaign →
        segmentCustomers campaign now db.customers = some seg →
        campaignStatus (run_with_external oracle now cid interfere db).1 cid
          = some "completed") :=
  run_with_external_spec oracle now cid interfere db hint

/-- An external pause request fired at every batch boundary of campaign 1. -/
def pauseReqW : Nat → DB → DB := fun _ d => setCampaignStatus d 1 "paused"

theorem pause_between_batches_not_observed_witness :
    (run_with_external (fun _ => true) 0 1 pauseReqW dbC2W).1.events
        = (run_campaign_task (fun _ => true) 0 dbC2W 1).1.events
    ∧ (run_with_external (fun _ => true) 0 1 pauseReqW dbC2W).2
        = (run_campaign_task (fun _ => true) 0 dbC2W 1).2
    ∧ (∀ campaign seg, findCampaign dbC2W 1 = some campaign →
        segmentCustomers campaign 0 dbC2W.customers = some seg →
        campaignStatus (run_with_external (fun _ => true) 0 1 pauseReqW dbC2W).1 1
          = some "completed") :=
  pause_between_batches_not_observed (fun _ => true) 0 1 pauseReqW dbC2W
    (fun _ _ => ⟨"paused", rfl⟩)

/-- Customer generator for the two-batch counterexample database. -/
def mkCustW (i : Nat) : Customer :=
  { id := i, restaurantId := 1, email := "c@example.com", first_name := "N",
    total_spend_cents := 0, last_visit_at := none }

/-- Database with 201 matching customers, so the run has two batches. -/
def bigDBW : DB :=
  { campaigns := [campAllW], customers := (List.range 201).map mkCustW,
    events := [] }

theorem bigDBW_findCampaign : findCampaign bigDBW 1 = some campAllW := rfl

theorem bigDBW_segment :
    segmentCustomers campAllW 0 bigDBW.customers = some bigDBW.customers := by
  have h0 : segmentCustomers campAllW 0 bigDBW.customers
      = some (high_spenders (bigDBW.customers.filter
          (fun c => c.restaurantId == campAllW.restaurantId))
          campAllW.segment_value) := rfl
  have h1 : bigDBW.customers.filter
      (fun c => c.restaurantId == campAllW.restaurantId) = bigDBW.customers := by
    rw [List.filter_eq_self]
    intro c hc
    obtain ⟨i, hi, rfl⟩ := List.mem_map.mp hc
    rfl
  have h2 : high_spenders bigDBW.customers campAllW.segment_value
      = bigDBW.customers := by
    rw [high_spenders, List.filter_eq_self]
    intro c hc
    obtain ⟨i, hi, rfl⟩ := List.mem_map.mp hc
    rfl
  rw [h0, h1, h2]

set_option maxRecDepth 4000 in
/-- C8 counterexample: with 201 matching customers (two batches of the
fixed batch size 200) and an external pause request fired at every batch
boundary, the run still processes the second batch — the outreach event for
the batch-2 customer (id 200) exists after the run — refuting the claim
that `run_campaign_task` checks the pause signal between batches and does
not continue processing subsequent batches for a paused campaign. -/
theorem pause_not_observed_counterexample :
    ¬ (findEv (run_with_external (fun _ => true) 0 1 pauseReqW bigDBW).1.events
        campAllW.id 200 = none) := by
  have hspec := run_with_external_spec (fun _ => true) 0 1 pauseReqW bigDBW
    (fun _ _ => ⟨"paused", rfl⟩)
  rw [hspec.1, findEv_none_iff]
  intro hnot
  apply hnot
  rw [run_happy_events (fun _ => true) 0 bigDBW_findCampaign bigDBW_segment]
  have hmem : mkCustW 200 ∈ bigDBW.customers :=
    List.mem_map_of_mem mkCustW (List.mem_range.mpr (by omega))
  exact processSeq_key_present _
    (mem_batchesOf hmem (List.mem_map_of_mem _ hmem)) _

end CRM
